import Mathlib

/-!
Verification development for the Openmw_Config crate: a shallow embedding of
its configuration data model, typed-setting parsers, chain loader, singleton
accessors and serializer, together with theorems settling the frozen claims.

Paths are modelled as plain strings with the forward slash as the host
separator (the Linux case of std::path::MAIN_SEPARATOR).  Machine integers
appear as Nat/Int with explicit range checks.  The f64 payload of a float
game setting is kept as its literal source text, since no claim depends on
floating-point arithmetic, only on parse-classification.
-/

namespace OpenmwCfg

/-! ### String primitives (faithful models of the Rust str operations used) -/

/-- Model of Rust str::trim: drop whitespace from both ends. -/
def rustTrim (s : String) : String :=
  String.mk (((s.data.dropWhile Char.isWhitespace).reverse.dropWhile Char.isWhitespace).reverse)

/-- Model of Rust str::to_lowercase restricted to the ASCII inputs the loader sees. -/
def rustLower (s : String) : String :=
  String.mk (s.data.map Char.toLower)

/-- Model of Rust str::starts_with for a string pattern. -/
def strStartsWith (s pat : String) : Bool :=
  pat.data.isPrefixOf s.data

/-- Model of Rust str::split(c): all fields, empty fields kept. -/
def splitOnChar (c : Char) : List Char → List (List Char)
  | [] => [[]]
  | x :: xs =>
    let r := splitOnChar c xs
    if x = c then [] :: r
    else
      match r with
      | [] => [[x]]
      | y :: ys => (x :: y) :: ys

/-- Model of Rust str::splitn(2, c): the text before the first occurrence of c
and the remainder after it; none when c does not occur (the splitn result
would then have fewer than two tokens). -/
def splitFirst (c : Char) : List Char → Option (List Char × List Char)
  | [] => none
  | x :: xs =>
    if x = c then some ([], xs)
    else (splitFirst c xs).map (fun p => (x :: p.1, p.2))

/-- Model of Rust str::trim_start_matches(['/', '\\']). -/
def trimStartSeps (s : String) : String :=
  String.mk (s.data.dropWhile (fun c => c = '/' || c = '\\'))

/-! ### Integer literal parsers (Rust u8 / i64 FromStr) -/

def natOfDigits (l : List Char) : Nat :=
  l.foldl (fun a c => a * 10 + (c.toNat - '0'.toNat)) 0

/-- A nonempty run of ASCII digits, as Rust integer FromStr requires after the sign. -/
def digitsToNat? (l : List Char) : Option Nat :=
  if l ≠ [] ∧ l.all Char.isDigit then some (natOfDigits l) else none

/-- Model of u8::from_str: optional leading plus sign, digits, value at most 255. -/
def parseU8 (s : String) : Option Nat :=
  let l := match s.data with
    | '+' :: rest => rest
    | l => l
  match digitsToNat? l with
  | some n => if n ≤ 255 then some n else none
  | none => none

/-- Model of i64::from_str: optional sign, digits, value within the i64 range. -/
def parseI64 (s : String) : Option Int :=
  match s.data with
  | '+' :: rest =>
    match digitsToNat? rest with
    | some n => if n ≤ 2 ^ 63 - 1 then some (n : Int) else none
    | none => none
  | '-' :: rest =>
    match digitsToNat? rest with
    | some n => if n ≤ 2 ^ 63 then some (-(n : Int)) else none
    | none => none
  | l =>
    match digitsToNat? l with
    | some n => if n ≤ 2 ^ 63 - 1 then some (n : Int) else none
    | none => none

/-- Recognizer for the syntax f64::from_str accepts in a mantissa:
digits, or digits dot digits?, or dot digits. -/
def isF64Mantissa (l : List Char) : Bool :=
  match splitFirst '.' l with
  | none => !l.isEmpty && l.all Char.isDigit
  | some (a, b) =>
    (a.all Char.isDigit && b.all Char.isDigit) && (!a.isEmpty || !b.isEmpty)

/-- Recognizer for an f64 exponent part: optional sign and a nonempty digit run. -/
def isF64Exp (l : List Char) : Bool :=
  match l with
  | '+' :: r => !r.isEmpty && r.all Char.isDigit
  | '-' :: r => !r.isEmpty && r.all Char.isDigit
  | r => !r.isEmpty && r.all Char.isDigit

/-- Recognizer for the strings f64::from_str accepts: optional sign, then one
of inf, infinity, nan (case-insensitive) or mantissa with optional exponent. -/
def isF64Lit (s : String) : Bool :=
  let l := match s.data with
    | '+' :: rest => rest
    | '-' :: rest => rest
    | l => l
  let lower := l.map Char.toLower
  if lower = "inf".data ∨ lower = "infinity".data ∨ lower = "nan".data then true
  else
    match l.span (fun c => c ≠ 'e' ∧ c ≠ 'E') with
    | (m, []) => isF64Mantissa m
    | (m, _ :: e) => isF64Mantissa m && isF64Exp e

/-! ### Path helpers (Linux string paths) -/

/-- Model of Path::parent for the paths the loader manipulates: everything
before the last separator (the filesystem root when that would be empty). -/
def parentDir (p : String) : String :=
  let r := (((p.data.reverse).dropWhile (fun c => c ≠ '/')).drop 1).reverse
  if r.isEmpty ∧ p.data.head? = some '/' then "/" else String.mk r

/-- Model of Path::join: an absolute right operand replaces the base. -/
def pathJoin (base suffix : String) : String :=
  if suffix.data.head? = some '/' then suffix else base ++ "/" ++ suffix

/-- Embedding of strings::strip_special_components: lexically drop dot
components and let dot-dot pop the preceding normal component; the root
component passes through. -/
def stripSpecial (p : String) : String :=
  let isAbs := p.data.head? = some '/'
  let comps := ((splitOnChar '/' p.data).map String.mk).filter (fun s => s ≠ "")
  let out := comps.foldl
    (fun acc c =>
      if c = "." then acc
      else if c = ".." then acc.dropLast
      else acc ++ [c]) []
  (if isAbs then "/" else "") ++ String.intercalate "/" out

/-- The two collaborator-supplied platform default directories
(crate::default_userdata_path and crate::default_config_path). -/
structure PlatformDefaults where
  userdataPath : String
  configPath : String
deriving DecidableEq, Repr

def userdataToken : String := "?userdata?"

def userconfigToken : String := "?userconfig?"

/-- Embedding of the quote-handling while loop of strings::parse_data_directory:
inside quotes an ampersand escapes the next character, an unescaped quote ends
the copy, a missing closing quote truncates at end of string. -/
def unquoteLoop : List Char → List Char
  | [] => []
  | '&' :: rest =>
    match rest with
    | [] => []
    | c :: rest2 => c :: unquoteLoop rest2
  | '"' :: _ => []
  | c :: rest => c :: unquoteLoop rest

def unquoteValue (s : String) : String :=
  if s.data.head? = some '"' then String.mk (unquoteLoop (s.data.drop 1)) else s

/-- Embedding of the token-replacement step of strings::parse_data_directory.
Note the source slices the userconfig case with the LENGTH OF THE USERDATA
TOKEN (ten characters instead of twelve); the embedding reproduces that. -/
def replaceTokens (d : PlatformDefaults) (s : String) : String :=
  if strStartsWith s userdataToken then
    pathJoin d.userdataPath (trimStartSeps (String.mk (s.data.drop userdataToken.length)))
  else if strStartsWith s userconfigToken then
    pathJoin d.configPath (trimStartSeps (String.mk (s.data.drop userdataToken.length)))
  else s

/-- Model of String::replace(['/', '\\'], MAIN_SEPARATOR) on a Linux host. -/
def sepNormalize (s : String) : String :=
  String.mk (s.data.map (fun c => if c = '\\' then '/' else c))

/-- Embedding of strings::parse_data_directory: unquote, substitute tokens,
normalize separators, absolutize against the declaring directory, then
lexically strip special components. -/
def parse_data_directory (d : PlatformDefaults) (configDir : String) (dataDir : String) : String :=
  let s1 := unquoteValue dataDir
  let s2 := replaceTokens d s1
  let s3 := sepNormalize s2
  let s4 := if s3.data.head? = some '/' then s3 else pathJoin configDir s3
  stripSpecial s4

/-! ### Setting records -/

/-- GameSettingMeta from lib.rs: the defining file and the verbatim preceding
comment block. -/
structure GameSettingMeta where
  source_config : String
  comment : String
deriving DecidableEq, Repr

/-- DirectorySetting: raw unresolved text plus the parsed path. -/
structure DirectorySetting where
  meta : GameSettingMeta
  original : String
  parsed : String
deriving DecidableEq, Repr

/-- DirectorySetting::new: parse once at construction against the declaring
directory (the caller clears the threaded comment buffer, modelled by the
call sites passing the buffer and then resetting it). -/
def DirectorySetting.new (d : PlatformDefaults) (value : String) (source_config : String)
    (comment : String) : DirectorySetting :=
  { meta := { source_config := source_config, comment := comment }
    original := value
    parsed := parse_data_directory d source_config value }

/-- FileSetting: a bare filename; equality in the source is purely on value. -/
structure FileSetting where
  meta : GameSettingMeta
  value : String
deriving DecidableEq, Repr

/-- GameSettingType from gamesetting.rs; the float payload keeps its literal
source text (the source stores the parsed f64). -/
inductive GameSettingType where
  | Color (meta : GameSettingMeta) (key : String) (r g b : Nat)
  | Str (meta : GameSettingMeta) (key : String) (value : String)
  | Float (meta : GameSettingMeta) (key : String) (value : String)
  | Int (meta : GameSettingMeta) (key : String) (value : Int)
deriving DecidableEq, Repr

def GameSettingType.key : GameSettingType → String
  | .Color _ k _ _ _ => k
  | .Str _ k _ => k
  | .Float _ k _ => k
  | .Int _ k _ => k

def GameSettingType.meta : GameSettingType → GameSettingMeta
  | .Color m _ _ _ _ => m
  | .Str m _ _ => m
  | .Float m _ _ => m
  | .Int m _ _ => m

/-- Display for the game-setting variants: the comment block, then
fallback=key,value with the value rendered per variant. -/
def GameSettingType.render : GameSettingType → String
  | .Color m k r g b =>
    m.comment ++ "fallback=" ++ k ++ "," ++ toString r ++ "," ++ toString g ++ "," ++ toString b
  | .Str m k v => m.comment ++ "fallback=" ++ k ++ "," ++ v
  | .Float m k v => m.comment ++ "fallback=" ++ k ++ "," ++ v
  | .Int m k v => m.comment ++ "fallback=" ++ k ++ "," ++ toString v

/-- The closed encoding enumeration. -/
inductive EncodingType where
  | WIN1250
  | WIN1251
  | WIN1252
deriving DecidableEq, Repr

/-- Display for EncodingType uses writeln and therefore ends in a newline. -/
def EncodingType.render : EncodingType → String
  | .WIN1250 => "win1250\n"
  | .WIN1251 => "win1251\n"
  | .WIN1252 => "win1252\n"

structure EncodingSetting where
  meta : GameSettingMeta
  encoding : EncodingType
deriving DecidableEq, Repr

structure GenericSetting where
  meta : GameSettingMeta
  key : String
  value : String
deriving DecidableEq, Repr

/-- SettingValue: the tagged union over recognized directive kinds. -/
inductive SettingValue where
  | DataDirectory (s : DirectorySetting)
  | GameSetting (s : GameSettingType)
  | UserData (s : DirectorySetting)
  | DataLocal (s : DirectorySetting)
  | Resources (s : DirectorySetting)
  | Encoding (s : EncodingSetting)
  | SubConfiguration (s : DirectorySetting)
  | Generic (s : GenericSetting)
  | ContentFile (s : FileSetting)
  | BethArchive (s : FileSetting)
  | Groundcover (s : FileSetting)
deriving DecidableEq, Repr

def SettingValue.meta : SettingValue → GameSettingMeta
  | .DataDirectory s => s.meta
  | .GameSetting s => s.meta
  | .UserData s => s.meta
  | .DataLocal s => s.meta
  | .Resources s => s.meta
  | .Encoding s => s.meta
  | .SubConfiguration s => s.meta
  | .Generic s => s.meta
  | .ContentFile s => s.meta
  | .BethArchive s => s.meta
  | .Groundcover s => s.meta

/-- Embedding of the Display impl for SettingValue: the comment block followed
by the directive text; only the encoding variant carries a trailing newline
(inherited from the writeln in the EncodingType Display). -/
def SettingValue.render : SettingValue → String
  | .Encoding s => s.meta.comment ++ "encoding=" ++ s.encoding.render
  | .UserData s => s.meta.comment ++ "user-data=" ++ s.original
  | .DataLocal s => s.meta.comment ++ "data-local=" ++ s.original
  | .Resources s => s.meta.comment ++ "resources=" ++ s.original
  | .GameSetting s => s.render
  | .DataDirectory s => s.meta.comment ++ "data=" ++ s.original
  | .SubConfiguration s => s.meta.comment ++ "config=" ++ s.original
  | .Generic s => s.meta.comment ++ s.key ++ "=" ++ s.value
  | .ContentFile s => s.meta.comment ++ "content=" ++ s.value
  | .BethArchive s => s.meta.comment ++ "fallback-archive=" ++ s.value
  | .Groundcover s => s.meta.comment ++ "groundcover=" ++ s.value

/-! ### Errors -/

/-- ConfigError from error.rs, restricted to the variants the embedded
operations can raise.  FuelExhausted is an artifact of the embedding: the
source recurses unboundedly (no cycle guard), the embedding bounds recursion
by explicit fuel. -/
inductive ConfigError where
  | DuplicateContentFile (file : String) (config_path : String)
  | DuplicateArchiveFile (file : String) (config_path : String)
  | DuplicateGroundcoverFile (file : String) (config_path : String)
  | InvalidGameSetting (value : String) (config_path : String)
  | BadEncoding (value : String) (config_path : String)
  | InvalidLine (value : String) (config_path : String)
  | CannotFind (config_path : String)
  | FuelExhausted
deriving DecidableEq, Repr

/-! ### Typed setting parsers -/

/-- Embedding of parse_color_value: split on commas, trim each token, keep
only the tokens that parse as u8, succeed when exactly three survive. -/
def parse_color_value (value : String) : Option (Nat × Nat × Nat) :=
  let parts := (((splitOnChar ',' value.data).map (fun l => rustTrim (String.mk l))).filterMap parseU8)
  match parts with
  | [r, g, b] => some (r, g, b)
  | _ => none

/-- Embedding of the TryFrom impl for GameSettingType: split the raw value at
the first comma into key and value, then classify the value as color, float,
int or string in that priority order. -/
def GameSettingType.tryFrom (original_value : String) (source_config : String)
    (queued_comment : String) : Except ConfigError GameSettingType :=
  match splitFirst ',' original_value.data with
  | none => .error (.InvalidGameSetting original_value source_config)
  | some (k, v) =>
    let key := String.mk k
    let value := String.mk v
    let meta : GameSettingMeta := { source_config := source_config, comment := queued_comment }
    match parse_color_value value with
    | some (r, g, b) => .ok (.Color meta key r g b)
    | none =>
      if value.data.contains '.' ∧ isF64Lit value then .ok (.Float meta key value)
      else
        match parseI64 value with
        | some i => .ok (.Int meta key i)
        | none => .ok (.Str meta key value)

/-- Embedding of the TryFrom impl for EncodingSetting: the closed enumeration,
anything else is a hard error. -/
def EncodingSetting.tryFrom (value : String) (source_config : String)
    (comment : String) : Except ConfigError EncodingSetting :=
  if value = "win1250" then
    .ok { meta := { source_config := source_config, comment := comment }, encoding := .WIN1250 }
  else if value = "win1251" then
    .ok { meta := { source_config := source_config, comment := comment }, encoding := .WIN1251 }
  else if value = "win1252" then
    .ok { meta := { source_config := source_config, comment := comment }, encoding := .WIN1252 }
  else .error (.BadEncoding value source_config)

/-! ### Configuration model -/

/-- OpenMWConfiguration: root config file plus the ordered settings sequence. -/
structure OpenMWConfiguration where
  root_config : String
  settings : List SettingValue
deriving DecidableEq, Repr

/-- Variant testers used by the singleton macro instantiations. -/
def SettingValue.isUserData : SettingValue → Bool
  | .UserData _ => true
  | _ => false

def SettingValue.isResources : SettingValue → Bool
  | .Resources _ => true
  | _ => false

def SettingValue.isDataLocal : SettingValue → Bool
  | .DataLocal _ => true
  | _ => false

def SettingValue.isEncoding : SettingValue → Bool
  | .Encoding _ => true
  | _ => false

def SettingValue.isDataDirectory : SettingValue → Bool
  | .DataDirectory _ => true
  | _ => false

def SettingValue.isContentFile : SettingValue → Bool
  | .ContentFile _ => true
  | _ => false

def SettingValue.isBethArchive : SettingValue → Bool
  | .BethArchive _ => true
  | _ => false

def SettingValue.isGameSetting : SettingValue → Bool
  | .GameSetting _ => true
  | _ => false

/-- Embedding of the setter body of the impl_singleton_setting macro: overwrite
the first entry of the variant in place when one exists, otherwise append;
with none, remove the first entry when one exists. -/
def setSingleton (isVar : SettingValue → Bool) (wrap : α → SettingValue)
    (settings : List SettingValue) (new : Option α) : List SettingValue :=
  match settings.findIdx? isVar, new with
  | some i, some v => settings.set i (wrap v)
  | none, some v => settings ++ [wrap v]
  | some i, none => settings.eraseIdx i
  | none, none => settings

/-- Extractors for the singleton getters (the find_map closures of the macro). -/
def SettingValue.asUserData : SettingValue → Option DirectorySetting
  | .UserData v => some v
  | _ => none

def SettingValue.asResources : SettingValue → Option DirectorySetting
  | .Resources v => some v
  | _ => none

def SettingValue.asDataLocal : SettingValue → Option DirectorySetting
  | .DataLocal v => some v
  | _ => none

def SettingValue.asEncoding : SettingValue → Option EncodingSetting
  | .Encoding v => some v
  | _ => none

/-- The four singleton getters generated by impl_singleton_setting: a reverse
scan returning the first hit. -/
def OpenMWConfiguration.userdata (c : OpenMWConfiguration) : Option DirectorySetting :=
  c.settings.reverse.findSome? SettingValue.asUserData

def OpenMWConfiguration.resources (c : OpenMWConfiguration) : Option DirectorySetting :=
  c.settings.reverse.findSome? SettingValue.asResources

def OpenMWConfiguration.data_local (c : OpenMWConfiguration) : Option DirectorySetting :=
  c.settings.reverse.findSome? SettingValue.asDataLocal

def OpenMWConfiguration.encoding (c : OpenMWConfiguration) : Option EncodingSetting :=
  c.settings.reverse.findSome? SettingValue.asEncoding

/-- The four singleton setters generated by impl_singleton_setting. -/
def OpenMWConfiguration.set_userdata (c : OpenMWConfiguration)
    (new : Option DirectorySetting) : OpenMWConfiguration :=
  { c with settings := setSingleton SettingValue.isUserData SettingValue.UserData c.settings new }

def OpenMWConfiguration.set_resources (c : OpenMWConfiguration)
    (new : Option DirectorySetting) : OpenMWConfiguration :=
  { c with settings := setSingleton SettingValue.isResources SettingValue.Resources c.settings new }

def OpenMWConfiguration.set_data_local (c : OpenMWConfiguration)
    (new : Option DirectorySetting) : OpenMWConfiguration :=
  { c with settings := setSingleton SettingValue.isDataLocal SettingValue.DataLocal c.settings new }

def OpenMWConfiguration.set_encoding (c : OpenMWConfiguration)
    (new : Option EncodingSetting) : OpenMWConfiguration :=
  { c with settings := setSingleton SettingValue.isEncoding SettingValue.Encoding c.settings new }

/-- Category projections of the settings sequence. -/
def contentVals (l : List SettingValue) : List String :=
  l.filterMap fun s =>
    match s with
    | .ContentFile p => some p.value
    | _ => none

def groundcoverVals (l : List SettingValue) : List String :=
  l.filterMap fun s =>
    match s with
    | .Groundcover p => some p.value
    | _ => none

def archiveVals (l : List SettingValue) : List String :=
  l.filterMap fun s =>
    match s with
    | .BethArchive p => some p.value
    | _ => none

def dataDirSettings (l : List SettingValue) : List DirectorySetting :=
  l.filterMap fun s =>
    match s with
    | .DataDirectory p => some p
    | _ => none

def dataLocalSettings (l : List SettingValue) : List DirectorySetting :=
  l.filterMap SettingValue.asDataLocal

def userDataSettings (l : List SettingValue) : List DirectorySetting :=
  l.filterMap SettingValue.asUserData

def resourcesSettings (l : List SettingValue) : List DirectorySetting :=
  l.filterMap SettingValue.asResources

def encodingSettings (l : List SettingValue) : List EncodingSetting :=
  l.filterMap SettingValue.asEncoding

def subConfigSettings (l : List SettingValue) : List DirectorySetting :=
  l.filterMap fun s =>
    match s with
    | .SubConfiguration p => some p
    | _ => none

def gameSettingsOf (l : List SettingValue) : List GameSettingType :=
  l.filterMap fun s =>
    match s with
    | .GameSetting p => some p
    | _ => none

/-- content_files / groundcover / fallback_archives / data_directories /
sub_configs on a configuration. -/
def OpenMWConfiguration.content_files (c : OpenMWConfiguration) : List String :=
  contentVals c.settings

def OpenMWConfiguration.groundcover (c : OpenMWConfiguration) : List String :=
  groundcoverVals c.settings

def OpenMWConfiguration.fallback_archives (c : OpenMWConfiguration) : List String :=
  archiveVals c.settings

def OpenMWConfiguration.data_directories (c : OpenMWConfiguration) : List String :=
  (dataDirSettings c.settings).map DirectorySetting.parsed

def OpenMWConfiguration.sub_configs (c : OpenMWConfiguration) : List DirectorySetting :=
  subConfigSettings c.settings

def OpenMWConfiguration.root_config_dir (c : OpenMWConfiguration) : String :=
  parentDir c.root_config

/-- util::user_config_path: the last sub-config directory, or the root config
directory when there is none. -/
def OpenMWConfiguration.user_config_path (c : OpenMWConfiguration) : String :=
  ((c.sub_configs.map DirectorySetting.parsed).getLast?).getD c.root_config_dir

/-- Embedding of game_settings: scan the settings in reverse, keep each game
setting whose rendered text (the Display string the source hashes) has not
been seen yet.  The seen set of the source HashSet is modelled as a list. -/
def gameSettingsRevDedup : List SettingValue → List String → List GameSettingType
  | [], _ => []
  | s :: rest, seen =>
    match s with
    | .GameSetting gs =>
      if gs.render ∈ seen then gameSettingsRevDedup rest seen
      else gs :: gameSettingsRevDedup rest (gs.render :: seen)
    | _ => gameSettingsRevDedup rest seen

def OpenMWConfiguration.game_settings (c : OpenMWConfiguration) : List GameSettingType :=
  gameSettingsRevDedup c.settings.reverse []

/-- Embedding of get_game_setting: reverse scan on key equality. -/
def OpenMWConfiguration.get_game_setting (c : OpenMWConfiguration) (key : String) :
    Option GameSettingType :=
  c.settings.reverse.findSome? fun s =>
    match s with
    | .GameSetting gs => if gs.key = key then some gs else none
    | _ => none

/-! ### Chain loader -/

/-- The relevant filesystem: an association of config-file paths (each ending
in the fixed filename) to their lines, as Rust lines() yields them. -/
structure ConfigFS where
  files : List (String × List String)
deriving DecidableEq, Repr

def ConfigFS.lookup (fs : ConfigFS) (p : String) : Option (List String) :=
  (fs.files.find? (fun e => e.1 = p)).map (fun e => e.2)

/-- The mutable state threaded through one call of load: the accumulated
configuration, the pending comment buffer, and the queued config= entries. -/
structure LoadState where
  cfg : OpenMWConfiguration
  queued_comment : String
  sub_configs : List (String × String)
deriving DecidableEq, Repr

/-- Embedding of the key-dispatch block of the line loop of
OpenMWConfiguration::load, with the trimmed key and value as parameters.
cfgPath is the config_dir argument of load, which (as the source is actually
invoked, from new and from its own recursion) is always the path of the
config file itself; insert_dir_setting therefore tags directory settings
with its parent directory. -/
def dispatchLine (d : PlatformDefaults) (cfgPath : String) (st : LoadState)
    (key value : String) : Except ConfigError LoadState :=
  if key = "content" then
    if st.cfg.settings.any (fun s =>
        match s with
        | .ContentFile p => p.value == value
        | _ => false) then
      .error (.DuplicateContentFile value cfgPath)
    else
      .ok { st with
        cfg := { st.cfg with settings := st.cfg.settings ++
          [.ContentFile { meta := { source_config := cfgPath, comment := st.queued_comment },
                          value := value }] }
        queued_comment := "" }
  else if key = "groundcover" then
    if st.cfg.settings.any (fun s =>
        match s with
        | .Groundcover p => p.value == value
        | _ => false) then
      .error (.DuplicateGroundcoverFile value cfgPath)
    else
      .ok { st with
        cfg := { st.cfg with settings := st.cfg.settings ++
          [.Groundcover { meta := { source_config := cfgPath, comment := st.queued_comment },
                          value := value }] }
        queued_comment := "" }
  else if key = "fallback-archive" then
    if st.cfg.settings.any (fun s =>
        match s with
        | .BethArchive p => p.value == value
        | _ => false) then
      .error (.DuplicateArchiveFile value cfgPath)
    else
      .ok { st with
        cfg := { st.cfg with settings := st.cfg.settings ++
          [.BethArchive { meta := { source_config := cfgPath, comment := st.queued_comment },
                          value := value }] }
        queued_comment := "" }
  else if key = "fallback" then
    match GameSettingType.tryFrom value cfgPath st.queued_comment with
    | .error e => .error e
    | .ok gs =>
      .ok { st with
        cfg := { st.cfg with settings := st.cfg.settings ++ [.GameSetting gs] }
        queued_comment := "" }
  else if key = "encoding" then
    match EncodingSetting.tryFrom value cfgPath st.queued_comment with
    | .error e => .error e
    | .ok enc =>
      .ok { st with
        cfg := { st.cfg with settings := (setSingleton SettingValue.isEncoding
          SettingValue.Encoding st.cfg.settings (some enc)) }
        queued_comment := "" }
  else if key = "config" then
    .ok { st with
      sub_configs := st.sub_configs ++ [(value, st.queued_comment)]
      queued_comment := "" }
  else if key = "data" then
    .ok { st with
      cfg := { st.cfg with settings := st.cfg.settings ++
        [.DataDirectory (DirectorySetting.new d value (parentDir cfgPath) st.queued_comment)] }
      queued_comment := "" }
  else if key = "resources" then
    .ok { st with
      cfg := { st.cfg with settings := st.cfg.settings ++
        [.Resources (DirectorySetting.new d value (parentDir cfgPath) st.queued_comment)] }
      queued_comment := "" }
  else if key = "user-data" then
    .ok { st with
      cfg := { st.cfg with settings := st.cfg.settings ++
        [.UserData (DirectorySetting.new d value (parentDir cfgPath) st.queued_comment)] }
      queued_comment := "" }
  else if key = "data-local" then
    .ok { st with
      cfg := { st.cfg with settings := st.cfg.settings ++
        [.DataLocal (DirectorySetting.new d value (parentDir cfgPath) st.queued_comment)] }
      queued_comment := "" }
  else if key = "replace" then
    if rustLower value = "content" then
      .ok { st with cfg := { st.cfg with settings := (st.cfg.settings.filter
        (fun s => !s.isContentFile)) } }
    else if rustLower value = "data" then
      .ok { st with cfg := { st.cfg with settings := (st.cfg.settings.filter
        (fun s => !s.isDataDirectory)) } }
    else if rustLower value = "fallback" then
      .ok { st with cfg := { st.cfg with settings := (st.cfg.settings.filter
        (fun s => !s.isGameSetting)) } }
    else if rustLower value = "fallback-archives" then
      .ok { st with cfg := { st.cfg with settings := (st.cfg.settings.filter
        (fun s => !s.isBethArchive)) } }
    else if rustLower value = "data-local" then
      .ok { st with cfg := { st.cfg with settings := (setSingleton
        SettingValue.isDataLocal SettingValue.DataLocal st.cfg.settings none) } }
    else if rustLower value = "resources" then
      .ok { st with cfg := { st.cfg with settings := (setSingleton
        SettingValue.isResources SettingValue.Resources st.cfg.settings none) } }
    else if rustLower value = "user-data" then
      .ok { st with cfg := { st.cfg with settings := (setSingleton
        SettingValue.isUserData SettingValue.UserData st.cfg.settings none) } }
    else if rustLower value = "config" then
      .ok { st with cfg := { st.cfg with settings := [] } }
    else
      .ok st
  else
    .ok { st with
      cfg := { st.cfg with settings := st.cfg.settings ++
        [.Generic { meta := { source_config := cfgPath, comment := st.queued_comment },
                    key := key, value := value }] }
      queued_comment := "" }

/-- Embedding of the line-dispatch loop body of OpenMWConfiguration::load:
blank and comment lines extend the pending comment buffer, anything else
must contain an equals sign and is dispatched on its trimmed key. -/
def processLine (d : PlatformDefaults) (cfgPath : String) (st : LoadState)
    (line : String) : Except ConfigError LoadState :=
  if rustTrim line = "" then
    .ok { st with queued_comment := st.queued_comment ++ "\n" }
  else if (rustTrim line).data.head? = some '#' then
    .ok { st with queued_comment := st.queued_comment ++ line ++ "\n" }
  else
    match splitFirst '=' (rustTrim line).data with
    | none => .error (.InvalidLine (rustTrim line) cfgPath)
    | some (kRaw, vRaw) =>
      dispatchLine d cfgPath st (rustTrim (String.mk kRaw)) (rustTrim (String.mk vRaw))

/-- Embedding of OpenMWConfiguration::load: read the file, process each line,
then process the queued config= entries in declaration order, loading each
referenced file depth-first before the next.  Fuel bounds the recursion the
source leaves unbounded. -/
def load (d : PlatformDefaults) (fs : ConfigFS) :
    Nat → String → OpenMWConfiguration → Except ConfigError OpenMWConfiguration
  | 0, _, _ => .error .FuelExhausted
  | fuel + 1, cfgPath, cfg =>
    match fs.lookup cfgPath with
    | none => .error (.CannotFind cfgPath)
    | some lines => do
      let st ← lines.foldlM (processLine d cfgPath) ⟨cfg, "", []⟩
      let cfgDir := parentDir cfgPath
      st.sub_configs.foldlM
        (fun acc sc => do
          let setting := DirectorySetting.new d sc.1 cfgDir sc.2
          let subFile := pathJoin setting.parsed "openmw.cfg"
          if (fs.lookup subFile).isSome then
            load d fs fuel subFile
              { acc with settings := acc.settings ++ [.SubConfiguration setting] }
          else
            .ok acc)
        st.cfg

/-- Embedding of the resources post-processing in OpenMWConfiguration::new:
when an effective resources directory exists, two synthetic data directories
are pushed to the front, the engine vfs directory ending up first. -/
def newPostProcess (d : PlatformDefaults) (cfg : OpenMWConfiguration) : OpenMWConfiguration :=
  match cfg.resources with
  | none => cfg
  | some dir =>
    let morrowind_vfs : SettingValue :=
      .DataDirectory (DirectorySetting.new d (pathJoin dir.parsed "vfs-mw") cfg.root_config "")
    let engine_vfs : SettingValue :=
      .DataDirectory (DirectorySetting.new d (pathJoin dir.parsed "vfs") cfg.root_config "")
    { cfg with settings := engine_vfs :: morrowind_vfs :: cfg.settings }

/-- Embedding of OpenMWConfiguration::new for a given root config file: load
the chain from an empty configuration, then apply the resources
post-processing.  (The data-local directory creation is an on-disk side
effect with no settings impact and is not modelled.) -/
def newConfig (d : PlatformDefaults) (fs : ConfigFS) (fuel : Nat) (rootConfig : String) :
    Except ConfigError OpenMWConfiguration :=
  (load d fs fuel rootConfig { root_config := rootConfig, settings := [] }).map (newPostProcess d)

/-! ### Serializer -/

/-- The filter-and-concatenate serializer body shared by save_user and
save_subconfig: settings whose source_config equals the target file, rendered
in stored order. -/
def renderFor (cfgFile : String) (l : List SettingValue) : String :=
  String.join (((l.filter (fun s => s.meta.source_config = cfgFile)).map SettingValue.render))

/-- Embedding of save_user: serialize the settings belonging to the user
config file (the on-disk writability probes are side effects and not
modelled; the string written is what the claims are about). -/
def OpenMWConfiguration.save_user_string (c : OpenMWConfiguration) : String :=
  renderFor (pathJoin c.user_config_path "openmw.cfg") c.settings

/-- The loader invariant behind the duplicate-detection and
encoding-uniqueness claims: the three file-valued categories hold pairwise
distinct values and at most one Encoding entry exists. -/
def MasterInv (l : List SettingValue) : Prop :=
  (contentVals l).Nodup ∧ (groundcoverVals l).Nodup ∧ (archiveVals l).Nodup
  ∧ l.countP SettingValue.isEncoding ≤ 1

/-! ### Spec-side value classification (for the refinement comparison) -/

/-- The possible classifications of a fallback value. -/
inductive GsClass where
  | color (r g b : Nat)
  | float (literal : String)
  | int (i : Int)
  | str (s : String)
deriving DecidableEq, Repr

/-- Written from the claim's words: Color exactly when the value splits on
commas into exactly three tokens each parseable as an 8-bit unsigned
integer; otherwise Float when it contains a dot and parses as f64; otherwise
Int when it parses as i64; otherwise String verbatim. -/
def claimClassify (value : String) : GsClass :=
  match ((splitOnChar ',' value.data).map (fun t => parseU8 (String.mk t))) with
  | [some r, some g, some b] => .color r g b
  | _ =>
    if value.data.contains '.' ∧ isF64Lit value then .float value
    else
      match parseI64 value with
      | some i => .int i
      | none => .str value

/-- The amended classification: Color exactly when, after splitting on commas
and trimming each token, the tokens that parse as u8 number exactly three
(non-parsing tokens are discarded rather than disqualifying); the remaining
cases are unchanged. -/
def amendedClassify (value : String) : GsClass :=
  match (((splitOnChar ',' value.data).map (fun t => rustTrim (String.mk t))).filterMap parseU8) with
  | [r, g, b] => .color r g b
  | _ =>
    if value.data.contains '.' ∧ isF64Lit value then .float value
    else
      match parseI64 value with
      | some i => .int i
      | none => .str value

/-- Build the game setting a classification denotes, for a given meta and key. -/
def GsClass.toGameSetting (m : GameSettingMeta) (key : String) : GsClass → GameSettingType
  | .color r g b => .Color m key r g b
  | .float v => .Float m key v
  | .int i => .Int m key i
  | .str v => .Str m key v

/-! ### Line shapes for the round-trip statement -/

def isBlankLine (l : String) : Bool := rustTrim l == ""

def isCommentLine (l : String) : Bool := (rustTrim l).data.head? == some '#'

/-- The dispatch keys whose settings are either re-rendered canonically
rather than verbatim (fallback, encoding), deferred (config), tagged with
the directory instead of the file (data, resources, user-data, data-local),
or not settings at all (replace). -/
def specialKey (k : String) : Bool :=
  k == "fallback" || k == "encoding" || k == "config" || k == "data" ||
  k == "resources" || k == "user-data" || k == "data-local" || k == "replace"

/-- A directive line in the round-trip class: already trimmed, no whitespace
around the equals sign, and a key whose setting is stored verbatim and
tagged with the defining file (content, groundcover, fallback-archive, or a
generic passthrough key). -/
def simpleDirective (line : String) : Bool :=
  !isBlankLine line && !isCommentLine line && rustTrim line == line &&
  match splitFirst '=' line.data with
  | none => false
  | some (k, v) =>
    rustTrim (String.mk k) == String.mk k && rustTrim (String.mk v) == String.mk v &&
    !specialKey (String.mk k)

def simpleLine (line : String) : Bool :=
  isBlankLine line || isCommentLine line || simpleDirective line

/-- What the serializer actually emits for a file of simple lines: blank lines
become a bare newline, comment lines are kept with their newline, directive
lines are emitted without one. -/
def flattenLines : List String → String
  | [] => ""
  | l :: ls =>
    (if isBlankLine l then "\n" else if isCommentLine l then l ++ "\n" else l) ++ flattenLines ls

/-- The pending comment buffer left after processing a run of lines, starting
from buffer c: directives consume it, blank and comment lines extend it. -/
def trailComment (c : String) : List String → String
  | [] => c
  | l :: ls =>
    if isBlankLine l then trailComment (c ++ "\n") ls
    else if isCommentLine l then trailComment (c ++ l ++ "\n") ls
    else trailComment "" ls

/-! ### Concrete fixtures for witnesses and counterexamples -/

def d0 : PlatformDefaults := ⟨"/ud", "/uc"⟩

/-- Extract the configuration of a successful load (fixtures only use it on
successful results). -/
def loadedCfg (r : Except ConfigError OpenMWConfiguration) : OpenMWConfiguration :=
  match r with
  | .ok c => c
  | .error _ => ⟨"", []⟩

/-- A chain where file A references configs B then C, and B references D. -/
def fsChainABCD : ConfigFS :=
  ⟨[("/A/openmw.cfg", ["ka=1", "config=/B", "config=/C"]),
    ("/B/openmw.cfg", ["kb=2", "config=/D"]),
    ("/C/openmw.cfg", ["kc=3"]),
    ("/D/openmw.cfg", ["kd=4"])]⟩

/-- Two chained files that each set the encoding. -/
def fsEncChain : ConfigFS :=
  ⟨[("/a/openmw.cfg", ["encoding=win1250", "config=/b"]),
    ("/b/openmw.cfg", ["encoding=win1251"])]⟩

/-- Two chained files that each set data-local. -/
def fsDataLocalChain : ConfigFS :=
  ⟨[("/a/openmw.cfg", ["data-local=one", "config=/b"]),
    ("/b/openmw.cfg", ["data-local=two"])]⟩

/-- A chain with a replace=data directive in the second file, between data
entries. -/
def fsReplaceChain : ConfigFS :=
  ⟨[("/a/openmw.cfg", ["data=d1", "config=/b"]),
    ("/b/openmw.cfg", ["data=d2", "replace=data", "data=d3"])]⟩

/-- A single file with two adjacent content lines. -/
def fsTwoContent : ConfigFS :=
  ⟨[("/r/openmw.cfg", ["content=a.esp", "content=b.esp"])]⟩

/-- A single file declaring a resources directory. -/
def fsResources : ConfigFS :=
  ⟨[("/r/openmw.cfg", ["resources=/res"])]⟩

/-- A single file with one entry of each file-valued kind. -/
def fsFileKinds : ConfigFS :=
  ⟨[("/r/openmw.cfg",
     ["content=a.esp", "content=b.esp", "groundcover=g.esp", "fallback-archive=x.bsa"])]⟩

/-- A single file mixing comments, blanks and simple directives, ending in a
directive. -/
def fsRoundTrip : ConfigFS :=
  ⟨[("/r/openmw.cfg", ["# header", "", "content=a.esp", "no-map=1", "# tail", "content=b.esp"])]⟩

def dlOne : DirectorySetting := ⟨⟨"/a", ""⟩, "one", "/a/one"⟩

def dlTwo : DirectorySetting := ⟨⟨"/b", ""⟩, "two", "/b/two"⟩

def dlThree : DirectorySetting := ⟨⟨"/u", ""⟩, "three", "/u/three"⟩

/-- A configuration holding two coexisting data-local entries, as a loaded
two-file chain produces. -/
def cfgTwoDataLocal : OpenMWConfiguration :=
  ⟨"/a/openmw.cfg", [.DataLocal dlOne, .DataLocal dlTwo]⟩

/-- The resources setting the fsResources chain produces. -/
def resSetting : DirectorySetting := ⟨⟨"/r", ""⟩, "/res", "/res"⟩

/-- The configuration loaded from fsResources (before post-processing). -/
def cfgRes : OpenMWConfiguration :=
  loadedCfg (load d0 fsResources 1 "/r/openmw.cfg" ⟨"/r/openmw.cfg", []⟩)

/-- The configuration loaded from the data-local chain. -/
def cfgDlChain : OpenMWConfiguration :=
  loadedCfg (load d0 fsDataLocalChain 2 "/a/openmw.cfg" ⟨"/a/openmw.cfg", []⟩)

/-- A load state with one data directory and one content file accumulated. -/
def stReplaceBefore : LoadState :=
  ⟨⟨"/a/openmw.cfg", [.DataDirectory dlOne, .ContentFile ⟨⟨"/a/openmw.cfg", ""⟩, "c.esp"⟩]⟩, "", []⟩

/-- The state stReplaceBefore after a replace=data line. -/
def stReplaceAfter : LoadState :=
  ⟨⟨"/a/openmw.cfg", [.ContentFile ⟨⟨"/a/openmw.cfg", ""⟩, "c.esp"⟩]⟩, "", []⟩

def encOne : EncodingSetting := ⟨⟨"/r", ""⟩, .WIN1250⟩

def encTwo : EncodingSetting := ⟨⟨"/r", ""⟩, .WIN1251⟩

/-- A configuration with exactly one entry of each singleton category. -/
def cfgSingletons : OpenMWConfiguration :=
  ⟨"/r/openmw.cfg", [.UserData dlOne, .Resources dlOne, .DataLocal dlOne, .Encoding encOne]⟩

/-- The configuration produced from fsFileKinds by new. -/
def cfgFileKinds : OpenMWConfiguration :=
  loadedCfg (newConfig d0 fsFileKinds 1 "/r/openmw.cfg")

/-- The lines of the round-trip fixture. -/
def rtLines : List String :=
  ["# header", "", "content=a.esp", "no-map=1", "# tail", "content=b.esp"]

/-- The configuration loaded from the round-trip fixture. -/
def cfgRT : OpenMWConfiguration :=
  loadedCfg (load d0 ⟨[("/r/openmw.cfg", rtLines)]⟩ 1 "/r/openmw.cfg" ⟨"/r/openmw.cfg", []⟩)

/-- A load state over the file-kinds configuration. -/
def stFileKinds : LoadState := ⟨cfgFileKinds, "", []⟩

def gsIntOne : GameSettingType := .Int ⟨"/f/openmw.cfg", ""⟩ "iFoo" 1

def gsIntTwo : GameSettingType := .Int ⟨"/f/openmw.cfg", ""⟩ "iFoo" 2

/-- A configuration holding two game settings with the same key and different
values. -/
def cfgTwoGs : OpenMWConfiguration :=
  ⟨"/f/openmw.cfg", [.GameSetting gsIntOne, .GameSetting gsIntTwo]⟩

/-! ### General lemmas shared between claims -/

theorem findSome?_eq_head?_filterMap (f : α → Option β) :
    ∀ l : List α, l.findSome? f = (l.filterMap f).head?
  | [] => by simp
  | x :: xs => by
    rw [List.findSome?_cons, List.filterMap_cons]
    cases hfx : f x
    · exact findSome?_eq_head?_filterMap f xs
    · rfl

/-- A reverse scan with find_map returns the last entry the extractor hits. -/
theorem findSome?_reverse_eq_getLast? (f : α → Option β) (l : List α) :
    l.reverse.findSome? f = (l.filterMap f).getLast? := by
  rw [findSome?_eq_head?_filterMap, List.filterMap_reverse, List.head?_reverse]

/-! ### Closed evaluations and counterexamples -/

/-- C7: the userdata token is replaced correctly, but the userconfig branch
slices the raw value by the length of the USERDATA token (ten characters),
leaving the residue g? of the userconfig token in the joined suffix instead
of replacing exactly the userconfig token. -/
theorem userconfig_token_slip_eval :
    parse_data_directory ⟨"/ud", "/uc"⟩ "/cfg" "?userconfig?/bar" = "/uc/g?/bar"
    ∧ parse_data_directory ⟨"/ud", "/uc"⟩ "/cfg" "?userdata?/bar" = "/ud/bar" :=
  ⟨rfl, rfl⟩

/-- C3: for a chain where file A references configs B then C and B references
D, the loader queues config= entries until A's own lines are consumed and
then recurses depth-first in declaration order, so the resulting settings
order is A's settings, then B's, then D's, then C's. -/
theorem subconfig_depth_first_order :
    load d0 fsChainABCD 4 "/A/openmw.cfg" ⟨"/A/openmw.cfg", []⟩ =
      .ok ⟨"/A/openmw.cfg",
        [.Generic ⟨⟨"/A/openmw.cfg", ""⟩, "ka", "1"⟩,
         .SubConfiguration ⟨⟨"/A", ""⟩, "/B", "/B"⟩,
         .Generic ⟨⟨"/B/openmw.cfg", ""⟩, "kb", "2"⟩,
         .SubConfiguration ⟨⟨"/B", ""⟩, "/D", "/D"⟩,
         .Generic ⟨⟨"/D/openmw.cfg", ""⟩, "kd", "4"⟩,
         .SubConfiguration ⟨⟨"/A", ""⟩, "/C", "/C"⟩,
         .Generic ⟨⟨"/C/openmw.cfg", ""⟩, "kc", "3"⟩]⟩ := rfl

/-- C1 counterexample: two adjacent untouched content lines serialize without
the newline after each key=value line, so the original byte sequence is not
reproduced even though no trailer is involved (save_user appends none). -/
theorem roundtrip_counterexample :
    load d0 fsTwoContent 1 "/r/openmw.cfg" ⟨"/r/openmw.cfg", []⟩ =
      .ok ⟨"/r/openmw.cfg",
        [.ContentFile ⟨⟨"/r/openmw.cfg", ""⟩, "a.esp"⟩,
         .ContentFile ⟨⟨"/r/openmw.cfg", ""⟩, "b.esp"⟩]⟩
    ∧ (loadedCfg (load d0 fsTwoContent 1 "/r/openmw.cfg" ⟨"/r/openmw.cfg", []⟩)).save_user_string
        = "content=a.espcontent=b.esp"
    ∧ "content=a.espcontent=b.esp" ≠ "content=a.esp\ncontent=b.esp\n" :=
  ⟨rfl, rfl, by decide⟩

/-- C4 counterexample: two chained files each set encoding=, yet the loaded
configuration holds a single Encoding entry (the loader overwrites it in
place through the singleton setter), not one entry per defining file. -/
theorem encoding_entries_counterexample :
    load d0 fsEncChain 2 "/a/openmw.cfg" ⟨"/a/openmw.cfg", []⟩ =
      .ok ⟨"/a/openmw.cfg",
        [.Encoding ⟨⟨"/b/openmw.cfg", ""⟩, .WIN1251⟩,
         .SubConfiguration ⟨⟨"/a", ""⟩, "/b", "/b"⟩]⟩
    ∧ (encodingSettings (loadedCfg (load d0 fsEncChain 2 "/a/openmw.cfg"
        ⟨"/a/openmw.cfg", []⟩)).settings).length = 1 :=
  ⟨rfl, rfl⟩

/-- C5 counterexample: with two coexisting data-local entries the setter
overwrites the first one while the getter scans in reverse, so set followed
by get returns the untouched second entry rather than the new value. -/
theorem singleton_set_get_counterexample :
    (cfgTwoDataLocal.set_data_local (some dlThree)).data_local = some dlTwo
    ∧ dlTwo ≠ dlThree :=
  ⟨rfl, by decide⟩

/-- C8 counterexample: two game settings sharing the key iFoo but differing in
value are both yielded by game_settings, refuting deduplication by key. -/
theorem game_settings_dedup_counterexample :
    cfgTwoGs.game_settings = [gsIntTwo, gsIntOne]
    ∧ gsIntOne.key = gsIntTwo.key ∧ gsIntOne ≠ gsIntTwo :=
  ⟨rfl, rfl, by decide⟩

/-- C6 counterexample: a value of four comma tokens, one of which does not
parse as u8, is still classified Color because parse_color_value discards
non-parsing tokens; the claim's rule classifies it String. -/
theorem color_filter_counterexample :
    GameSettingType.tryFrom "iFoo,128,64,255,zzz" "/r/openmw.cfg" "" =
      .ok (.Color ⟨"/r/openmw.cfg", ""⟩ "iFoo" 128 64 255)
    ∧ claimClassify "128,64,255,zzz" = .str "128,64,255,zzz" :=
  ⟨rfl, rfl⟩

/-! ### The fallback classification claim -/

theorem splitFirst_append_cons (c : Char) (b : List Char) :
    ∀ a : List Char, c ∉ a → splitFirst c (a ++ c :: b) = some (a, b)
  | [], _ => by simp [splitFirst]
  | x :: xs, h => by
    have hx : ¬x = c := fun e => h (e ▸ List.mem_cons_self x xs)
    have hxs : c ∉ xs := fun m => h (List.mem_cons_of_mem _ m)
    simp [splitFirst, hx, splitFirst_append_cons c b xs hxs]

theorem splitFirst_eq_some_imp (c : Char) :
    ∀ {l a b : List Char}, splitFirst c l = some (a, b) → l = a ++ c :: b := by
  intro l
  induction l with
  | nil => intro a b h; simp [splitFirst] at h
  | cons x xs ih =>
    intro a b h
    unfold splitFirst at h
    by_cases hx : x = c
    · rw [if_pos hx] at h
      rw [Option.some.injEq, Prod.mk.injEq] at h
      obtain ⟨ha, hb⟩ := h
      subst ha; subst hb; subst hx
      rfl
    · rw [if_neg hx] at h
      cases hs : splitFirst c xs with
      | none => rw [hs] at h; exact Option.noConfusion h
      | some p =>
        rw [hs] at h
        simp only [Option.map_some', Option.some.injEq, Prod.mk.injEq] at h
        obtain ⟨ha, hb⟩ := h
        rw [← ha, ← hb, List.cons_append]
        exact congrArg (x :: ·) (ih hs)

/-- C6 amended: the classification the code performs on a fallback value: the
first comma separates the key; the value is Color exactly when, after
splitting on commas and trimming, exactly three tokens parse as u8
(non-parsing tokens are discarded); otherwise Float when it contains a dot
and parses as f64, otherwise Int when it parses as i64, otherwise String
verbatim including embedded commas. -/
theorem fallback_value_classification (key value src com : String) (hk : ',' ∉ key.data) :
    GameSettingType.tryFrom (key ++ "," ++ value) src com =
      .ok ((amendedClassify value).toGameSetting ⟨src, com⟩ key) := by
  have hdata : (key ++ "," ++ value).data = key.data ++ ',' :: value.data := by
    simp
  have hsplit : splitFirst ',' (key ++ "," ++ value).data = some (key.data, value.data) := by
    rw [hdata]; exact splitFirst_append_cons ',' value.data key.data hk
  have hmk : ∀ s : String, String.mk s.data = s := fun _ => rfl
  rcases hp : (((splitOnChar ',' value.data).map fun t => rustTrim (String.mk t)).filterMap parseU8)
    with (_ | ⟨r, _ | ⟨g, _ | ⟨b, _ | ⟨x, rest⟩⟩⟩⟩)
  · simp only [GameSettingType.tryFrom, hsplit, hmk, amendedClassify, parse_color_value, hp,
      GsClass.toGameSetting]
    by_cases hf : value.data.contains '.' ∧ isF64Lit value
    · rw [if_pos hf, if_pos hf]
    · rw [if_neg hf, if_neg hf]
      cases hi : parseI64 value <;> rfl
  · simp only [GameSettingType.tryFrom, hsplit, hmk, amendedClassify, parse_color_value, hp,
      GsClass.toGameSetting]
    by_cases hf : value.data.contains '.' ∧ isF64Lit value
    · rw [if_pos hf, if_pos hf]
    · rw [if_neg hf, if_neg hf]
      cases hi : parseI64 value <;> rfl
  · simp only [GameSettingType.tryFrom, hsplit, hmk, amendedClassify, parse_color_value, hp,
      GsClass.toGameSetting]
    by_cases hf : value.data.contains '.' ∧ isF64Lit value
    · rw [if_pos hf, if_pos hf]
    · rw [if_neg hf, if_neg hf]
      cases hi : parseI64 value <;> rfl
  · simp only [GameSettingType.tryFrom, hsplit, hmk, amendedClassify, parse_color_value, hp,
      GsClass.toGameSetting]
  · simp only [GameSettingType.tryFrom, hsplit, hmk, amendedClassify, parse_color_value, hp,
      GsClass.toGameSetting]
    by_cases hf : value.data.contains '.' ∧ isF64Lit value
    · rw [if_pos hf, if_pos hf]
    · rw [if_neg hf, if_neg hf]
      cases hi : parseI64 value <;> rfl

/-- Witness for the fallback classification theorem at the claim's color
example. -/
theorem fallback_value_classification_witness :
    GameSettingType.tryFrom ("iFoo" ++ "," ++ "128,64,255") "/w/openmw.cfg" "" =
      .ok ((amendedClassify "128,64,255").toGameSetting ⟨"/w/openmw.cfg", ""⟩ "iFoo") :=
  fallback_value_classification "iFoo" "128,64,255" "/w/openmw.cfg" "" (by decide)

/-! ### Synthetic vfs data directories (C10) -/

/-- C10: when the loaded chain has an effective resources directory, new
inserts exactly two synthetic DataDirectory settings at the front, the vfs
one first and the vfs-mw one second, each tagged with the root config file
and an empty comment, leaving the loaded settings after them unchanged. -/
theorem resources_vfs_synthesis (d : PlatformDefaults) (fs : ConfigFS) (fuel : Nat)
    (root : String) (cfg0 : OpenMWConfiguration) (r : DirectorySetting)
    (hload : load d fs fuel root ⟨root, []⟩ = .ok cfg0)
    (hres : cfg0.resources = some r) :
    newConfig d fs fuel root =
      .ok ⟨cfg0.root_config,
        .DataDirectory (DirectorySetting.new d (pathJoin r.parsed "vfs") cfg0.root_config "") ::
        .DataDirectory (DirectorySetting.new d (pathJoin r.parsed "vfs-mw") cfg0.root_config "") ::
        cfg0.settings⟩
    ∧ (DirectorySetting.new d (pathJoin r.parsed "vfs") cfg0.root_config "").meta
        = ⟨cfg0.root_config, ""⟩
    ∧ (DirectorySetting.new d (pathJoin r.parsed "vfs-mw") cfg0.root_config "").meta
        = ⟨cfg0.root_config, ""⟩ := by
  refine ⟨?_, rfl, rfl⟩
  unfold newConfig
  rw [hload]
  simp only [Except.map, newPostProcess, hres]

/-- Witness for the synthetic vfs theorem on a concrete chain. -/
theorem resources_vfs_synthesis_witness :
    newConfig d0 fsResources 1 "/r/openmw.cfg" =
      .ok ⟨cfgRes.root_config,
        .DataDirectory (DirectorySetting.new d0 (pathJoin resSetting.parsed "vfs")
          cfgRes.root_config "") ::
        .DataDirectory (DirectorySetting.new d0 (pathJoin resSetting.parsed "vfs-mw")
          cfgRes.root_config "") ::
        cfgRes.settings⟩
    ∧ (DirectorySetting.new d0 (pathJoin resSetting.parsed "vfs") cfgRes.root_config "").meta
        = ⟨cfgRes.root_config, ""⟩
    ∧ (DirectorySetting.new d0 (pathJoin resSetting.parsed "vfs-mw") cfgRes.root_config "").meta
        = ⟨cfgRes.root_config, ""⟩ :=
  resources_vfs_synthesis d0 fsResources 1 "/r/openmw.cfg" cfgRes resSetting rfl rfl

/-! ### Replace semantics (C9) -/

theorem dataDirSettings_filter_not (l : List SettingValue) :
    dataDirSettings (l.filter (fun s => !s.isDataDirectory)) = [] := by
  rw [dataDirSettings, List.filterMap_eq_nil_iff]
  intro a ha
  have hmem := List.mem_filter.mp ha
  cases a <;> simp_all [SettingValue.isDataDirectory]

/-- C9: a replace=data line maps the accumulated settings to their
subsequence without the DataDirectory entries: every data directory
accumulated so far (from any file of the chain) is removed, every entry of
another category is kept in order, and the rest of the loader state is
untouched, so data entries appended afterwards are unaffected; on the
concrete chain, the data entry of the first file and the earlier data entry
of the second file are gone while the sub-configuration entry and the data
entry after the directive survive. -/
theorem replace_data_semantics :
    (∀ (d : PlatformDefaults) (p : String) (st st' : LoadState),
        processLine d p st "replace=data" = .ok st' →
        st'.cfg.settings = st.cfg.settings.filter (fun s => !s.isDataDirectory)
        ∧ dataDirSettings st'.cfg.settings = []
        ∧ st'.cfg.root_config = st.cfg.root_config
        ∧ st'.queued_comment = st.queued_comment
        ∧ st'.sub_configs = st.sub_configs)
    ∧ load d0 fsReplaceChain 2 "/a/openmw.cfg" ⟨"/a/openmw.cfg", []⟩ =
        .ok ⟨"/a/openmw.cfg",
          [.SubConfiguration ⟨⟨"/a", ""⟩, "/b", "/b"⟩,
           .DataDirectory ⟨⟨"/b", ""⟩, "d3", "/b/d3"⟩]⟩ := by
  constructor
  · intro d p st st' h
    have hred : processLine d p st "replace=data" =
        .ok { st with cfg := { st.cfg with settings :=
          (st.cfg.settings.filter (fun s => !s.isDataDirectory)) } } := rfl
    rw [hred] at h
    injection h with h
    subst h
    exact ⟨rfl, dataDirSettings_filter_not _, rfl, rfl, rfl⟩
  · rfl

/-- Witness for the replace=data step theorem at a concrete accumulated
state. -/
theorem replace_data_semantics_witness :
    stReplaceAfter.cfg.settings
        = stReplaceBefore.cfg.settings.filter (fun s => !s.isDataDirectory)
    ∧ dataDirSettings stReplaceAfter.cfg.settings = []
    ∧ stReplaceAfter.cfg.root_config = stReplaceBefore.cfg.root_config
    ∧ stReplaceAfter.queued_comment = stReplaceBefore.queued_comment
    ∧ stReplaceAfter.sub_configs = stReplaceBefore.sub_configs :=
  replace_data_semantics.1 d0 "/a/openmw.cfg" stReplaceBefore stReplaceAfter rfl

/-! ### Singleton setter and getter interaction (C5) -/

theorem findSome?_append_of_some (f : α → Option β) {a : List α} {v : β} (b : List α)
    (h : a.findSome? f = some v) : (a ++ b).findSome? f = some v := by
  induction a with
  | nil => simp at h
  | cons x xs ih =>
    rw [List.cons_append, List.findSome?_cons]
    rw [List.findSome?_cons] at h
    cases hfx : f x
    · rw [hfx] at h
      exact ih h
    · rw [hfx] at h
      exact h

theorem findSome?_append_of_none (f : α → Option β) {a : List α} (b : List α)
    (h : ∀ x ∈ a, f x = none) : (a ++ b).findSome? f = b.findSome? f := by
  induction a with
  | nil => rfl
  | cons x xs ih =>
    rw [List.cons_append, List.findSome?_cons, h x (List.mem_cons_self x xs)]
    exact ih (fun y hy => h y (List.mem_cons_of_mem x hy))

/-- Setting a singleton and then reading it back returns the new value,
provided at most one entry of the category exists beforehand. -/
theorem setSingleton_get_of_count (isVar : SettingValue → Bool) (wrap : α → SettingValue)
    (ext : SettingValue → Option α)
    (hext : ∀ v, ext (wrap v) = some v)
    (hnone : ∀ s, isVar s = false → ext s = none)
    (v : α) :
    ∀ l : List SettingValue, l.countP isVar ≤ 1 →
      (setSingleton isVar wrap l (some v)).reverse.findSome? ext = some v := by
  intro l
  induction l with
  | nil =>
    intro _
    simp [setSingleton, List.findSome?_cons, hext]
  | cons x xs ih =>
    intro hcount
    cases hx : isVar x with
    | true =>
      have hidx : (x :: xs).findIdx? isVar = some 0 := by
        simp [List.findIdx?_cons, hx]
      have h2 : xs.countP isVar = 0 := by
        have hc2 := hcount
        rw [List.countP_cons, hx, if_pos rfl] at hc2
        omega
      have hxs0 : ∀ a ∈ xs, isVar a = false := by
        intro a ha
        have := List.countP_eq_zero.mp h2 a ha
        simpa using this
      have hset : setSingleton isVar wrap (x :: xs) (some v) = wrap v :: xs := by
        unfold setSingleton
        rw [hidx]
        rfl
      rw [hset, List.reverse_cons]
      rw [findSome?_append_of_none ext _
        (fun s hs => hnone s (hxs0 s (List.mem_reverse.mp hs)))]
      simp [List.findSome?_cons, hext]
    | false =>
      cases hidxs : xs.findIdx? isVar with
      | none =>
        have hidx : (x :: xs).findIdx? isVar = none := by
          simp [List.findIdx?_cons, hx, List.findIdx?_succ, hidxs]
        have hset : setSingleton isVar wrap (x :: xs) (some v) = (x :: xs) ++ [wrap v] := by
          unfold setSingleton
          rw [hidx]
        rw [hset, List.reverse_append]
        simp [List.findSome?_cons, hext]
      | some i =>
        have hidx : (x :: xs).findIdx? isVar = some (i + 1) := by
          simp [List.findIdx?_cons, hx, List.findIdx?_succ, hidxs]
        have hset : setSingleton isVar wrap (x :: xs) (some v) = x :: xs.set i (wrap v) := by
          unfold setSingleton
          rw [hidx]
          exact List.set_cons_succ x xs i (wrap v)
        have hxsset : setSingleton isVar wrap xs (some v) = xs.set i (wrap v) := by
          unfold setSingleton
          rw [hidxs]
        have hcount2 : xs.countP isVar ≤ 1 := by
          rw [List.countP_cons, hx] at hcount
          simpa using hcount
        have hrec := ih hcount2
        rw [hxsset] at hrec
        rw [hset, List.reverse_cons]
        exact findSome?_append_of_some ext _ hrec

/-- C5 amended: for every singleton category, the setter overwrites the first
entry in place (or appends), and set followed by get returns the new value
whenever at most one entry of the category coexists in the settings; with
two or more coexisting entries the getter (a reverse scan) returns the last,
untouched entry instead. -/
theorem singleton_set_then_get (c : OpenMWConfiguration) :
    (∀ v, c.settings.countP SettingValue.isUserData ≤ 1 →
        (c.set_userdata (some v)).userdata = some v)
    ∧ (∀ v, c.settings.countP SettingValue.isResources ≤ 1 →
        (c.set_resources (some v)).resources = some v)
    ∧ (∀ v, c.settings.countP SettingValue.isDataLocal ≤ 1 →
        (c.set_data_local (some v)).data_local = some v)
    ∧ (∀ v, c.settings.countP SettingValue.isEncoding ≤ 1 →
        (c.set_encoding (some v)).encoding = some v) := by
  refine ⟨fun v h => ?_, fun v h => ?_, fun v h => ?_, fun v h => ?_⟩
  · exact setSingleton_get_of_count SettingValue.isUserData SettingValue.UserData
      SettingValue.asUserData (fun _ => rfl)
      (fun s hs => by cases s <;> simp_all [SettingValue.isUserData, SettingValue.asUserData])
      v c.settings h
  · exact setSingleton_get_of_count SettingValue.isResources SettingValue.Resources
      SettingValue.asResources (fun _ => rfl)
      (fun s hs => by cases s <;> simp_all [SettingValue.isResources, SettingValue.asResources])
      v c.settings h
  · exact setSingleton_get_of_count SettingValue.isDataLocal SettingValue.DataLocal
      SettingValue.asDataLocal (fun _ => rfl)
      (fun s hs => by cases s <;> simp_all [SettingValue.isDataLocal, SettingValue.asDataLocal])
      v c.settings h
  · exact setSingleton_get_of_count SettingValue.isEncoding SettingValue.Encoding
      SettingValue.asEncoding (fun _ => rfl)
      (fun s hs => by cases s <;> simp_all [SettingValue.isEncoding, SettingValue.asEncoding])
      v c.settings h

/-- Witness for the set-then-get theorem on a configuration with one entry of
each singleton category. -/
theorem singleton_set_then_get_witness :
    (cfgSingletons.set_userdata (some dlThree)).userdata = some dlThree
    ∧ (cfgSingletons.set_resources (some dlThree)).resources = some dlThree
    ∧ (cfgSingletons.set_data_local (some dlThree)).data_local = some dlThree
    ∧ (cfgSingletons.set_encoding (some encTwo)).encoding = some encTwo :=
  ⟨(singleton_set_then_get cfgSingletons).1 dlThree (by decide),
   (singleton_set_then_get cfgSingletons).2.1 dlThree (by decide),
   (singleton_set_then_get cfgSingletons).2.2.1 dlThree (by decide),
   (singleton_set_then_get cfgSingletons).2.2.2 encTwo (by decide)⟩

/-! ### The loader invariant: distinct file values and a unique encoding -/

theorem masterInv_nil : MasterInv [] := by
  refine ⟨?_, ?_, ?_, ?_⟩ <;> simp [contentVals, groundcoverVals, archiveVals]

theorem MasterInv.sublist {l1 l2 : List SettingValue} (h : l1.Sublist l2)
    (hm : MasterInv l2) : MasterInv l1 :=
  ⟨List.Nodup.sublist (h.filterMap _) hm.1,
   List.Nodup.sublist (h.filterMap _) hm.2.1,
   List.Nodup.sublist (h.filterMap _) hm.2.2.1,
   le_trans (List.Sublist.countP_le _ h) hm.2.2.2⟩

theorem MasterInv.push_invisible {l : List SettingValue} {x : SettingValue}
    (hm : MasterInv l)
    (hc : contentVals [x] = []) (hg : groundcoverVals [x] = [])
    (ha : archiveVals [x] = []) (he : SettingValue.isEncoding x = false) :
    MasterInv (l ++ [x]) := by
  obtain ⟨h1, h2, h3, h4⟩ := hm
  refine ⟨?_, ?_, ?_, ?_⟩
  · unfold contentVals at *
    rw [List.filterMap_append, hc, List.append_nil]
    exact h1
  · unfold groundcoverVals at *
    rw [List.filterMap_append, hg, List.append_nil]
    exact h2
  · unfold archiveVals at *
    rw [List.filterMap_append, ha, List.append_nil]
    exact h3
  · rw [List.countP_append]
    have : List.countP SettingValue.isEncoding [x] = 0 := by
      simp [List.countP_cons, he]
    omega

theorem not_any_contentVal {l : List SettingValue} {v : String}
    (hv : ¬(l.any fun s =>
        match s with
        | SettingValue.ContentFile p => p.value == v
        | _ => false) = true) :
    v ∉ contentVals l := by
  intro hmem
  apply hv
  rw [List.any_eq_true]
  rw [contentVals, List.mem_filterMap] at hmem
  obtain ⟨a, ha, hfa⟩ := hmem
  refine ⟨a, ha, ?_⟩
  cases a <;> simp_all

theorem not_any_groundcoverVal {l : List SettingValue} {v : String}
    (hv : ¬(l.any fun s =>
        match s with
        | SettingValue.Groundcover p => p.value == v
        | _ => false) = true) :
    v ∉ groundcoverVals l := by
  intro hmem
  apply hv
  rw [List.any_eq_true]
  rw [groundcoverVals, List.mem_filterMap] at hmem
  obtain ⟨a, ha, hfa⟩ := hmem
  refine ⟨a, ha, ?_⟩
  cases a <;> simp_all

theorem not_any_archiveVal {l : List SettingValue} {v : String}
    (hv : ¬(l.any fun s =>
        match s with
        | SettingValue.BethArchive p => p.value == v
        | _ => false) = true) :
    v ∉ archiveVals l := by
  intro hmem
  apply hv
  rw [List.any_eq_true]
  rw [archiveVals, List.mem_filterMap] at hmem
  obtain ⟨a, ha, hfa⟩ := hmem
  refine ⟨a, ha, ?_⟩
  cases a <;> simp_all

theorem MasterInv.push_content {l : List SettingValue} {m : GameSettingMeta} {v : String}
    (hm : MasterInv l) (hv : v ∉ contentVals l) :
    MasterInv (l ++ [SettingValue.ContentFile ⟨m, v⟩]) := by
  obtain ⟨h1, h2, h3, h4⟩ := hm
  refine ⟨?_, ?_, ?_, ?_⟩
  · unfold contentVals at *
    rw [List.filterMap_append]
    simp only [List.filterMap_cons, List.filterMap_nil]
    rw [List.nodup_append]
    exact ⟨h1, by simp, by intro a ha hb; simp at hb; subst hb; exact hv ha⟩
  · unfold groundcoverVals at *
    rw [List.filterMap_append]
    simp
    exact h2
  · unfold archiveVals at *
    rw [List.filterMap_append]
    simp
    exact h3
  · rw [List.countP_append]
    simp [List.countP_cons, SettingValue.isEncoding]
    omega

theorem MasterInv.push_groundcover {l : List SettingValue} {m : GameSettingMeta} {v : String}
    (hm : MasterInv l) (hv : v ∉ groundcoverVals l) :
    MasterInv (l ++ [SettingValue.Groundcover ⟨m, v⟩]) := by
  obtain ⟨h1, h2, h3, h4⟩ := hm
  refine ⟨?_, ?_, ?_, ?_⟩
  · unfold contentVals at *
    rw [List.filterMap_append]
    simp
    exact h1
  · unfold groundcoverVals at *
    rw [List.filterMap_append]
    simp only [List.filterMap_cons, List.filterMap_nil]
    rw [List.nodup_append]
    exact ⟨h2, by simp, by intro a ha hb; simp at hb; subst hb; exact hv ha⟩
  · unfold archiveVals at *
    rw [List.filterMap_append]
    simp
    exact h3
  · rw [List.countP_append]
    simp [List.countP_cons, SettingValue.isEncoding]
    omega

theorem MasterInv.push_archive {l : List SettingValue} {m : GameSettingMeta} {v : String}
    (hm : MasterInv l) (hv : v ∉ archiveVals l) :
    MasterInv (l ++ [SettingValue.BethArchive ⟨m, v⟩]) := by
  obtain ⟨h1, h2, h3, h4⟩ := hm
  refine ⟨?_, ?_, ?_, ?_⟩
  · unfold contentVals at *
    rw [List.filterMap_append]
    simp
    exact h1
  · unfold groundcoverVals at *
    rw [List.filterMap_append]
    simp
    exact h2
  · unfold archiveVals at *
    rw [List.filterMap_append]
    simp only [List.filterMap_cons, List.filterMap_nil]
    rw [List.nodup_append]
    exact ⟨h3, by simp, by intro a ha hb; simp at hb; subst hb; exact hv ha⟩
  · rw [List.countP_append]
    simp [List.countP_cons, SettingValue.isEncoding]
    omega

theorem filterMap_setSingleton_some (isVar : SettingValue → Bool) (wrap : α → SettingValue)
    (f : SettingValue → Option γ) (hfw : ∀ v, f (wrap v) = none)
    (hfv : ∀ s, isVar s = true → f s = none) (v : α) :
    ∀ l : List SettingValue, (setSingleton isVar wrap l (some v)).filterMap f = l.filterMap f
  | [] => by simp [setSingleton, hfw]
  | x :: xs => by
    cases hx : isVar x with
    | true =>
      have hidx : (x :: xs).findIdx? isVar = some 0 := by
        simp [List.findIdx?_cons, hx]
      unfold setSingleton
      rw [hidx]
      show ((x :: xs).set 0 (wrap v)).filterMap f = _
      rw [List.set_cons_zero, List.filterMap_cons, List.filterMap_cons, hfw, hfv x hx]
    | false =>
      cases hidxs : xs.findIdx? isVar with
      | none =>
        have hidx : (x :: xs).findIdx? isVar = none := by
          simp [List.findIdx?_cons, hx, List.findIdx?_succ, hidxs]
        unfold setSingleton
        rw [hidx]
        rw [List.filterMap_append]
        simp [hfw]
      | some i =>
        have hidx : (x :: xs).findIdx? isVar = some (i + 1) := by
          simp [List.findIdx?_cons, hx, List.findIdx?_succ, hidxs]
        unfold setSingleton
        rw [hidx]
        show ((x :: xs).set (i + 1) (wrap v)).filterMap f = _
        rw [List.set_cons_succ, List.filterMap_cons, List.filterMap_cons]
        have hrec := filterMap_setSingleton_some isVar wrap f hfw hfv v xs
        unfold setSingleton at hrec
        rw [hidxs] at hrec
        rw [hrec]

theorem countP_setSingleton_le_one (isVar : SettingValue → Bool) (wrap : α → SettingValue)
    (hw : ∀ v, isVar (wrap v) = true) (v : α) :
    ∀ l : List SettingValue, l.countP isVar ≤ 1 →
      (setSingleton isVar wrap l (some v)).countP isVar ≤ 1
  | [], _ => by simp [setSingleton, List.countP_cons, hw]
  | x :: xs, hcount => by
    cases hx : isVar x with
    | true =>
      have hidx : (x :: xs).findIdx? isVar = some 0 := by
        simp [List.findIdx?_cons, hx]
      unfold setSingleton
      rw [hidx]
      show ((x :: xs).set 0 (wrap v)).countP isVar ≤ 1
      rw [List.set_cons_zero, List.countP_cons, hw]
      rw [List.countP_cons, hx] at hcount
      exact hcount
    | false =>
      cases hidxs : xs.findIdx? isVar with
      | none =>
        have hidx : (x :: xs).findIdx? isVar = none := by
          simp [List.findIdx?_cons, hx, List.findIdx?_succ, hidxs]
        have hall : ∀ y ∈ x :: xs, isVar y = false := by
          intro y hy
          rcases List.mem_cons.mp hy with hy1 | hy2
          · subst hy1; exact hx
          · exact List.findIdx?_eq_none_iff.mp hidxs y hy2
        unfold setSingleton
        rw [hidx]
        rw [List.countP_append]
        have h0 : (x :: xs).countP isVar = 0 := List.countP_eq_zero.mpr (by
          intro a ha
          simp [hall a ha])
        simp [h0, List.countP_cons, hw]
      | some i =>
        have hidx : (x :: xs).findIdx? isVar = some (i + 1) := by
          simp [List.findIdx?_cons, hx, List.findIdx?_succ, hidxs]
        unfold setSingleton
        rw [hidx]
        show ((x :: xs).set (i + 1) (wrap v)).countP isVar ≤ 1
        rw [List.set_cons_succ, List.countP_cons, hx]
        have hrec := countP_setSingleton_le_one isVar wrap hw v xs (by
          rw [List.countP_cons, hx] at hcount
          simpa using hcount)
        unfold setSingleton at hrec
        rw [hidxs] at hrec
        simpa using hrec

theorem setSingleton_none_sublist (isVar : SettingValue → Bool) (wrap : α → SettingValue)
    (l : List SettingValue) :
    (setSingleton isVar wrap l (none : Option α)).Sublist l := by
  cases hidx : l.findIdx? isVar with
  | none =>
    unfold setSingleton
    rw [hidx]
  | some i =>
    unfold setSingleton
    rw [hidx]
    exact List.eraseIdx_sublist l i

theorem MasterInv.set_enc {l : List SettingValue} (e : EncodingSetting) (hm : MasterInv l) :
    MasterInv (setSingleton SettingValue.isEncoding SettingValue.Encoding l (some e)) := by
  obtain ⟨h1, h2, h3, h4⟩ := hm
  refine ⟨?_, ?_, ?_, ?_⟩
  · unfold contentVals
    rw [filterMap_setSingleton_some SettingValue.isEncoding SettingValue.Encoding _
      (fun _ => rfl) (fun s hs => by cases s <;> simp_all [SettingValue.isEncoding]) e l]
    exact h1
  · unfold groundcoverVals
    rw [filterMap_setSingleton_some SettingValue.isEncoding SettingValue.Encoding _
      (fun _ => rfl) (fun s hs => by cases s <;> simp_all [SettingValue.isEncoding]) e l]
    exact h2
  · unfold archiveVals
    rw [filterMap_setSingleton_some SettingValue.isEncoding SettingValue.Encoding _
      (fun _ => rfl) (fun s hs => by cases s <;> simp_all [SettingValue.isEncoding]) e l]
    exact h3
  · exact countP_setSingleton_le_one SettingValue.isEncoding SettingValue.Encoding
      (fun _ => rfl) e l h4

/-- The key dispatch of the loader preserves the invariant. -/
theorem dispatchLine_masterInv (d : PlatformDefaults) (p : String) (st : LoadState)
    (key value : String) (st' : LoadState)
    (h : dispatchLine d p st key value = .ok st') (hm : MasterInv st.cfg.settings) :
    MasterInv st'.cfg.settings := by
  unfold dispatchLine at h
  by_cases hk1 : key = "content"
  · rw [if_pos hk1] at h
    by_cases hdup : (st.cfg.settings.any fun s =>
        match s with
        | SettingValue.ContentFile p => p.value == value
        | _ => false) = true
    · rw [if_pos hdup] at h
      exact Except.noConfusion h
    · rw [if_neg hdup] at h
      injection h with h
      subst h
      exact hm.push_content (not_any_contentVal hdup)
  rw [if_neg hk1] at h
  by_cases hk2 : key = "groundcover"
  · rw [if_pos hk2] at h
    by_cases hdup : (st.cfg.settings.any fun s =>
        match s with
        | SettingValue.Groundcover p => p.value == value
        | _ => false) = true
    · rw [if_pos hdup] at h
      exact Except.noConfusion h
    · rw [if_neg hdup] at h
      injection h with h
      subst h
      exact hm.push_groundcover (not_any_groundcoverVal hdup)
  rw [if_neg hk2] at h
  by_cases hk3 : key = "fallback-archive"
  · rw [if_pos hk3] at h
    by_cases hdup : (st.cfg.settings.any fun s =>
        match s with
        | SettingValue.BethArchive p => p.value == value
        | _ => false) = true
    · rw [if_pos hdup] at h
      exact Except.noConfusion h
    · rw [if_neg hdup] at h
      injection h with h
      subst h
      exact hm.push_archive (not_any_archiveVal hdup)
  rw [if_neg hk3] at h
  by_cases hk4 : key = "fallback"
  · rw [if_pos hk4] at h
    cases hgs : GameSettingType.tryFrom value p st.queued_comment with
    | error e =>
      rw [hgs] at h
      exact Except.noConfusion h
    | ok gs =>
      rw [hgs] at h
      injection h with h
      subst h
      exact hm.push_invisible rfl rfl rfl rfl
  rw [if_neg hk4] at h
  by_cases hk5 : key = "encoding"
  · rw [if_pos hk5] at h
    cases henc : EncodingSetting.tryFrom value p st.queued_comment with
    | error e =>
      rw [henc] at h
      exact Except.noConfusion h
    | ok enc =>
      rw [henc] at h
      injection h with h
      subst h
      exact hm.set_enc enc
  rw [if_neg hk5] at h
  by_cases hk6 : key = "config"
  · rw [if_pos hk6] at h
    injection h with h
    subst h
    exact hm
  rw [if_neg hk6] at h
  by_cases hk7 : key = "data"
  · rw [if_pos hk7] at h
    injection h with h
    subst h
    exact hm.push_invisible rfl rfl rfl rfl
  rw [if_neg hk7] at h
  by_cases hk8 : key = "resources"
  · rw [if_pos hk8] at h
    injection h with h
    subst h
    exact hm.push_invisible rfl rfl rfl rfl
  rw [if_neg hk8] at h
  by_cases hk9 : key = "user-data"
  · rw [if_pos hk9] at h
    injection h with h
    subst h
    exact hm.push_invisible rfl rfl rfl rfl
  rw [if_neg hk9] at h
  by_cases hk10 : key = "data-local"
  · rw [if_pos hk10] at h
    injection h with h
    subst h
    exact hm.push_invisible rfl rfl rfl rfl
  rw [if_neg hk10] at h
  by_cases hk11 : key = "replace"
  · rw [if_pos hk11] at h
    by_cases hr1 : rustLower value = "content"
    · rw [if_pos hr1] at h
      injection h with h
      subst h
      exact MasterInv.sublist (List.filter_sublist _) hm
    rw [if_neg hr1] at h
    by_cases hr2 : rustLower value = "data"
    · rw [if_pos hr2] at h
      injection h with h
      subst h
      exact MasterInv.sublist (List.filter_sublist _) hm
    rw [if_neg hr2] at h
    by_cases hr3 : rustLower value = "fallback"
    · rw [if_pos hr3] at h
      injection h with h
      subst h
      exact MasterInv.sublist (List.filter_sublist _) hm
    rw [if_neg hr3] at h
    by_cases hr4 : rustLower value = "fallback-archives"
    · rw [if_pos hr4] at h
      injection h with h
      subst h
      exact MasterInv.sublist (List.filter_sublist _) hm
    rw [if_neg hr4] at h
    by_cases hr5 : rustLower value = "data-local"
    · rw [if_pos hr5] at h
      injection h with h
      subst h
      exact MasterInv.sublist (setSingleton_none_sublist _ _ _) hm
    rw [if_neg hr5] at h
    by_cases hr6 : rustLower value = "resources"
    · rw [if_pos hr6] at h
      injection h with h
      subst h
      exact MasterInv.sublist (setSingleton_none_sublist _ _ _) hm
    rw [if_neg hr6] at h
    by_cases hr7 : rustLower value = "user-data"
    · rw [if_pos hr7] at h
      injection h with h
      subst h
      exact MasterInv.sublist (setSingleton_none_sublist _ _ _) hm
    rw [if_neg hr7] at h
    by_cases hr8 : rustLower value = "config"
    · rw [if_pos hr8] at h
      injection h with h
      subst h
      exact masterInv_nil
    rw [if_neg hr8] at h
    injection h with h
    subst h
    exact hm
  rw [if_neg hk11] at h
  injection h with h
  subst h
  exact hm.push_invisible rfl rfl rfl rfl

/-- Each line step of the loader preserves the invariant. -/
theorem processLine_masterInv (d : PlatformDefaults) (p : String) (st : LoadState)
    (line : String) (st' : LoadState)
    (h : processLine d p st line = .ok st') (hm : MasterInv st.cfg.settings) :
    MasterInv st'.cfg.settings := by
  unfold processLine at h
  split at h
  · injection h with h; subst h; exact hm
  split at h
  · injection h with h; subst h; exact hm
  split at h
  · exact Except.noConfusion h
  · exact dispatchLine_masterInv d p st _ _ st' h hm

/-- An invariant preserved by each step of an Except fold is preserved by the
whole fold. -/
theorem foldlM_except_inv {σ α ε : Type} (P : σ → Prop) (f : σ → α → Except ε σ)
    (hf : ∀ s a s', P s → f s a = .ok s' → P s') :
    ∀ (l : List α) (s s' : σ), P s → l.foldlM f s = .ok s' → P s'
  | [], s, s', hp, h => by
    rw [List.foldlM_nil] at h
    injection h with h
    subst h
    exact hp
  | a :: l, s, s', hp, h => by
    rw [List.foldlM_cons] at h
    cases hfa : f s a with
    | error e =>
      rw [hfa] at h
      exact Except.noConfusion h
    | ok s1 =>
      rw [hfa] at h
      exact foldlM_except_inv P f hf l s1 s' (hf s a s1 hp hfa) h

/-- An invariant on the settings preserved by every line step and by pushing
a SubConfiguration entry is preserved by the whole recursive load. -/
theorem load_preserves_inv (d : PlatformDefaults) (fs : ConfigFS)
    (P : List SettingValue → Prop)
    (hstep : ∀ p st line st', P (LoadState.cfg st).settings →
      processLine d p st line = .ok st' → P (LoadState.cfg st').settings)
    (hsub : ∀ l x, P l → P (l ++ [SettingValue.SubConfiguration x])) :
    ∀ (fuel : Nat) (path : String) (cfg cfg' : OpenMWConfiguration),
      P cfg.settings → load d fs fuel path cfg = .ok cfg' → P cfg'.settings := by
  intro fuel
  induction fuel with
  | zero =>
    intro path cfg cfg' hp h
    exact Except.noConfusion h
  | succ n ih =>
    intro path cfg cfg' hp h
    unfold load at h
    cases hlk : fs.lookup path with
    | none =>
      rw [hlk] at h
      exact Except.noConfusion h
    | some lines =>
      rw [hlk] at h
      dsimp only [] at h
      cases hst : lines.foldlM (processLine d path) ⟨cfg, "", []⟩ with
      | error e =>
        rw [hst] at h
        exact Except.noConfusion h
      | ok st =>
        rw [hst] at h
        have hPst : P st.cfg.settings :=
          foldlM_except_inv (fun s : LoadState => P s.cfg.settings) (processLine d path)
            (fun s a s2 hp2 h2 => hstep path s a s2 hp2 h2) lines ⟨cfg, "", []⟩ st hp hst
        refine foldlM_except_inv (fun c : OpenMWConfiguration => P c.settings) _ ?_
          st.sub_configs st.cfg cfg' hPst h
        intro acc sc c2 hpacc hbody
        try dsimp only [] at hbody
        split at hbody
        · exact ih _ _ c2 (hsub acc.settings _ hpacc) hbody
        · injection hbody with hbody
          subst hbody
          exact hpacc

theorem any_contentVal_of_mem {l : List SettingValue} {v : String}
    (hv : v ∈ contentVals l) :
    (l.any fun s =>
      match s with
      | SettingValue.ContentFile p => p.value == v
      | _ => false) = true := by
  by_contra hc
  exact not_any_contentVal hc hv

theorem any_groundcoverVal_of_mem {l : List SettingValue} {v : String}
    (hv : v ∈ groundcoverVals l) :
    (l.any fun s =>
      match s with
      | SettingValue.Groundcover p => p.value == v
      | _ => false) = true := by
  by_contra hc
  exact not_any_groundcoverVal hc hv

theorem any_archiveVal_of_mem {l : List SettingValue} {v : String}
    (hv : v ∈ archiveVals l) :
    (l.any fun s =>
      match s with
      | SettingValue.BethArchive p => p.value == v
      | _ => false) = true := by
  by_contra hc
  exact not_any_archiveVal hc hv

/-- C2: on every successful chain load, content-file names, archive names and
groundcover names are each pairwise distinct across the entire resolved
configuration; and a content / groundcover / fallback-archive directive whose
value is already accumulated anywhere in the chain makes the dispatch fail
immediately with the corresponding duplicate error, so the whole load aborts
and no partial configuration is returned. -/
theorem chain_file_values_unique :
    (∀ (d : PlatformDefaults) (fs : ConfigFS) (fuel : Nat) (root : String)
        (cfg : OpenMWConfiguration),
      newConfig d fs fuel root = .ok cfg →
      (contentVals cfg.settings).Nodup ∧ (groundcoverVals cfg.settings).Nodup
      ∧ (archiveVals cfg.settings).Nodup)
    ∧ (∀ (d : PlatformDefaults) (p : String) (st : LoadState) (value : String),
        value ∈ contentVals st.cfg.settings →
        dispatchLine d p st "content" value = .error (.DuplicateContentFile value p))
    ∧ (∀ (d : PlatformDefaults) (p : String) (st : LoadState) (value : String),
        value ∈ groundcoverVals st.cfg.settings →
        dispatchLine d p st "groundcover" value
          = .error (.DuplicateGroundcoverFile value p))
    ∧ (∀ (d : PlatformDefaults) (p : String) (st : LoadState) (value : String),
        value ∈ archiveVals st.cfg.settings →
        dispatchLine d p st "fallback-archive" value
          = .error (.DuplicateArchiveFile value p)) := by
  refine ⟨?_, ?_, ?_, ?_⟩
  case refine_2 =>
    intro d p st value hv
    unfold dispatchLine
    rw [if_pos rfl, if_pos (any_contentVal_of_mem hv)]
  case refine_3 =>
    intro d p st value hv
    unfold dispatchLine
    rw [if_neg (by decide), if_pos rfl, if_pos (any_groundcoverVal_of_mem hv)]
  case refine_4 =>
    intro d p st value hv
    unfold dispatchLine
    rw [if_neg (by decide), if_neg (by decide), if_pos rfl,
      if_pos (any_archiveVal_of_mem hv)]
  intro d fs fuel root cfg h
  unfold newConfig at h
  cases hld : load d fs fuel root ⟨root, []⟩ with
  | error e =>
    rw [hld] at h
    exact Except.noConfusion h
  | ok c0 =>
    rw [hld] at h
    injection h with h
    subst h
    have hm : MasterInv c0.settings :=
      load_preserves_inv d fs MasterInv
        (fun p st line st' hp h2 => processLine_masterInv d p st line st' h2 hp)
        (fun l x hp => hp.push_invisible rfl rfl rfl rfl)
        fuel root ⟨root, []⟩ c0 masterInv_nil hld
    unfold newPostProcess
    cases hres : c0.resources with
    | none => exact ⟨hm.1, hm.2.1, hm.2.2.1⟩
    | some r =>
      refine ⟨?_, ?_, ?_⟩
      · unfold contentVals at *
        simp only [List.filterMap_cons]
        exact hm.1
      · unfold groundcoverVals at *
        simp only [List.filterMap_cons]
        exact hm.2.1
      · unfold archiveVals at *
        simp only [List.filterMap_cons]
        exact hm.2.2.1

/-- Witness for the uniqueness theorem on a concrete successful chain and a
concrete duplicate of each kind. -/
theorem chain_file_values_unique_witness :
    ((contentVals cfgFileKinds.settings).Nodup ∧ (groundcoverVals cfgFileKinds.settings).Nodup
    ∧ (archiveVals cfgFileKinds.settings).Nodup)
    ∧ dispatchLine d0 "/r/openmw.cfg" stFileKinds "content" "a.esp"
        = .error (.DuplicateContentFile "a.esp" "/r/openmw.cfg")
    ∧ dispatchLine d0 "/r/openmw.cfg" stFileKinds "groundcover" "g.esp"
        = .error (.DuplicateGroundcoverFile "g.esp" "/r/openmw.cfg")
    ∧ dispatchLine d0 "/r/openmw.cfg" stFileKinds "fallback-archive" "x.bsa"
        = .error (.DuplicateArchiveFile "x.bsa" "/r/openmw.cfg") :=
  ⟨chain_file_values_unique.1 d0 fsFileKinds 1 "/r/openmw.cfg" cfgFileKinds rfl,
   chain_file_values_unique.2.1 d0 "/r/openmw.cfg" stFileKinds "a.esp" (by decide),
   chain_file_values_unique.2.2.1 d0 "/r/openmw.cfg" stFileKinds "g.esp" (by decide),
   chain_file_values_unique.2.2.2 d0 "/r/openmw.cfg" stFileKinds "x.bsa" (by decide)⟩

/-! ### Singleton getters and last-wins (C4) -/

/-- C4 amended: every singleton getter returns the last entry of its category
in traversal order (the reverse scan); for UserData, DataLocal and Resources
multiple entries may coexist, one per defining file, as the concrete
data-local chain shows, and the effective value is the one from the file
loaded last; the Encoding category however is kept unique by the loader,
which overwrites the existing entry in place, so at most one Encoding entry
ever exists in a loaded configuration (carrying the last-loaded value). -/
theorem singleton_last_wins :
    (∀ c : OpenMWConfiguration,
        c.userdata = (userDataSettings c.settings).getLast?
        ∧ c.resources = (resourcesSettings c.settings).getLast?
        ∧ c.data_local = (dataLocalSettings c.settings).getLast?
        ∧ c.encoding = (encodingSettings c.settings).getLast?)
    ∧ (∀ (d : PlatformDefaults) (fs : ConfigFS) (fuel : Nat) (root : String)
          (cfg : OpenMWConfiguration),
        load d fs fuel root ⟨root, []⟩ = .ok cfg →
        cfg.settings.countP SettingValue.isEncoding ≤ 1)
    ∧ (load d0 fsDataLocalChain 2 "/a/openmw.cfg" ⟨"/a/openmw.cfg", []⟩ = .ok cfgDlChain
       ∧ dataLocalSettings cfgDlChain.settings = [dlOne, dlTwo]
       ∧ cfgDlChain.data_local = some dlTwo) := by
  refine ⟨?_, ?_, rfl, rfl, rfl⟩
  · intro c
    exact ⟨findSome?_reverse_eq_getLast? SettingValue.asUserData c.settings,
      findSome?_reverse_eq_getLast? SettingValue.asResources c.settings,
      findSome?_reverse_eq_getLast? SettingValue.asDataLocal c.settings,
      findSome?_reverse_eq_getLast? SettingValue.asEncoding c.settings⟩
  · intro d fs fuel root cfg hld
    have hm : MasterInv cfg.settings :=
      load_preserves_inv d fs MasterInv
        (fun p st line st' hp h2 => processLine_masterInv d p st line st' h2 hp)
        (fun l x hp => hp.push_invisible rfl rfl rfl rfl)
        fuel root ⟨root, []⟩ cfg masterInv_nil hld
    exact hm.2.2.2

/-- Witness for the last-wins theorem: its getter equations at the loaded
data-local chain and the encoding bound at that same load. -/
theorem singleton_last_wins_witness :
    (cfgDlChain.userdata = (userDataSettings cfgDlChain.settings).getLast?
    ∧ cfgDlChain.resources = (resourcesSettings cfgDlChain.settings).getLast?
    ∧ cfgDlChain.data_local = (dataLocalSettings cfgDlChain.settings).getLast?
    ∧ cfgDlChain.encoding = (encodingSettings cfgDlChain.settings).getLast?)
    ∧ cfgDlChain.settings.countP SettingValue.isEncoding ≤ 1 :=
  ⟨singleton_last_wins.1 cfgDlChain,
   singleton_last_wins.2.1 d0 fsDataLocalChain 2 "/a/openmw.cfg" cfgDlChain rfl⟩

/-! ### Game-setting enumeration dedups by rendered text (C8) -/

theorem dedup_renders_nodup (l : List SettingValue) :
    ∀ seen : List String,
      ((gameSettingsRevDedup l seen).map GameSettingType.render).Nodup
      ∧ ∀ r ∈ (gameSettingsRevDedup l seen).map GameSettingType.render, r ∉ seen := by
  induction l with
  | nil => intro seen; simp [gameSettingsRevDedup]
  | cons s rest ih =>
    intro seen
    cases s
    case GameSetting gs =>
      simp only [gameSettingsRevDedup]
      by_cases hseen : gs.render ∈ seen
      · rw [if_pos hseen]
        exact ih seen
      · rw [if_neg hseen]
        obtain ⟨ihn, ihs⟩ := ih (gs.render :: seen)
        constructor
        · rw [List.map_cons, List.nodup_cons]
          exact ⟨fun hmem => (ihs _ hmem) (List.mem_cons_self _ _), ihn⟩
        · intro r hr
          rw [List.map_cons] at hr
          rcases List.mem_cons.mp hr with h1 | h2
          · subst h1; exact hseen
          · intro hrseen
            exact (ihs r h2) (List.mem_cons_of_mem _ hrseen)
    all_goals simp only [gameSettingsRevDedup]
    all_goals exact ih seen

theorem dedup_subset (l : List SettingValue) :
    ∀ (seen : List String) (gs : GameSettingType),
      gs ∈ gameSettingsRevDedup l seen → gs ∈ gameSettingsOf l := by
  induction l with
  | nil => intro seen gs h; simp [gameSettingsRevDedup] at h
  | cons s rest ih =>
    intro seen gs h
    cases s
    case GameSetting g =>
      simp only [gameSettingsRevDedup] at h
      simp only [gameSettingsOf, List.filterMap_cons]
      by_cases hseen : g.render ∈ seen
      · rw [if_pos hseen] at h
        exact List.mem_cons_of_mem _ (ih seen gs h)
      · rw [if_neg hseen] at h
        rcases List.mem_cons.mp h with h1 | h2
        · subst h1; exact List.mem_cons_self _ _
        · exact List.mem_cons_of_mem _ (ih _ gs h2)
    all_goals simp only [gameSettingsRevDedup] at h
    all_goals simp only [gameSettingsOf, List.filterMap_cons]
    all_goals exact ih seen gs h

theorem dedup_covers (l : List SettingValue) :
    ∀ (seen : List String) (gs : GameSettingType),
      gs ∈ gameSettingsOf l →
      (∃ gs2 ∈ gameSettingsRevDedup l seen, gs2.render = gs.render) ∨ gs.render ∈ seen := by
  induction l with
  | nil => intro seen gs h; simp [gameSettingsOf] at h
  | cons s rest ih =>
    intro seen gs h
    cases s
    case GameSetting g =>
      simp only [gameSettingsOf, List.filterMap_cons] at h
      simp only [gameSettingsRevDedup]
      by_cases hseen : g.render ∈ seen
      · rw [if_pos hseen]
        rcases List.mem_cons.mp h with h1 | h2
        · subst h1; right; exact hseen
        · exact ih seen gs h2
      · rw [if_neg hseen]
        rcases List.mem_cons.mp h with h1 | h2
        · subst h1
          left
          exact ⟨gs, List.mem_cons_self _ _, rfl⟩
        · rcases ih (g.render :: seen) gs h2 with ⟨gs2, hgs2, hrend⟩ | hs
          · left
            exact ⟨gs2, List.mem_cons_of_mem _ hgs2, hrend⟩
          · rcases List.mem_cons.mp hs with he | hs2
            · left
              exact ⟨g, List.mem_cons_self _ _, he.symm⟩
            · right
              exact hs2
    all_goals simp only [gameSettingsOf, List.filterMap_cons] at h
    all_goals simp only [gameSettingsRevDedup]
    all_goals exact ih seen gs h

theorem filterMap_keyed (key : String) (l : List SettingValue) :
    (l.filterMap fun s =>
      match s with
      | SettingValue.GameSetting gs => if gs.key = key then some gs else none
      | _ => none)
    = (gameSettingsOf l).filter (fun gs => gs.key == key) := by
  induction l with
  | nil => rfl
  | cons s rest ih =>
    cases s
    case GameSetting g =>
      simp only [List.filterMap_cons, gameSettingsOf] at ih ⊢
      by_cases hk : g.key = key
      · rw [if_pos hk]
        rw [List.filter_cons]
        simp [hk, ih]
      · rw [if_neg hk]
        rw [List.filter_cons]
        simp [hk, ih]
    all_goals simp only [List.filterMap_cons, gameSettingsOf] at ih ⊢
    all_goals exact ih

/-- C8 amended: enumerating all effective game settings deduplicates by the
full RENDERED text (comment block, key and value as Display prints them),
not by key: the yielded list has pairwise distinct rendered strings, every
yielded setting is one of the stored game settings, and every stored game
setting is represented by a yielded one with the same rendered text — so
settings sharing a key but differing in value or comment are each yielded.
Lookup by key (get_game_setting) does return the last stored entry whose key
matches. -/
theorem game_settings_render_dedup :
    (∀ c : OpenMWConfiguration,
        ((c.game_settings).map GameSettingType.render).Nodup
        ∧ (∀ gs ∈ c.game_settings, gs ∈ gameSettingsOf c.settings)
        ∧ (∀ gs ∈ gameSettingsOf c.settings, ∃ gs2 ∈ c.game_settings,
            gs2.render = gs.render))
    ∧ (∀ (c : OpenMWConfiguration) (key : String),
        c.get_game_setting key
          = ((gameSettingsOf c.settings).filter (fun gs => gs.key == key)).getLast?) := by
  constructor
  · intro c
    refine ⟨(dedup_renders_nodup c.settings.reverse []).1, ?_, ?_⟩
    · intro gs hgs
      have hmem := dedup_subset c.settings.reverse [] gs hgs
      simp only [gameSettingsOf, List.filterMap_reverse, List.mem_reverse] at hmem
      simpa [gameSettingsOf] using hmem
    · intro gs hgs
      have hrev : gs ∈ gameSettingsOf c.settings.reverse := by
        simp only [gameSettingsOf, List.filterMap_reverse, List.mem_reverse]
        simpa [gameSettingsOf] using hgs
      rcases dedup_covers c.settings.reverse [] gs hrev with h | h
      · exact h
      · simp at h
  · intro c key
    unfold OpenMWConfiguration.get_game_setting
    rw [findSome?_reverse_eq_getLast?, filterMap_keyed]

/-- Witness for the dedup-by-render theorem at the two-setting fixture. -/
theorem game_settings_render_dedup_witness :
    (((cfgTwoGs.game_settings).map GameSettingType.render).Nodup
    ∧ (∀ gs ∈ cfgTwoGs.game_settings, gs ∈ gameSettingsOf cfgTwoGs.settings)
    ∧ (∀ gs ∈ gameSettingsOf cfgTwoGs.settings, ∃ gs2 ∈ cfgTwoGs.game_settings,
        gs2.render = gs.render))
    ∧ cfgTwoGs.get_game_setting "iFoo"
        = ((gameSettingsOf cfgTwoGs.settings).filter (fun gs => gs.key == "iFoo")).getLast? :=
  ⟨game_settings_render_dedup.1 cfgTwoGs, game_settings_render_dedup.2 cfgTwoGs "iFoo"⟩

/-! ### The round-trip serialization claim (C1) -/

theorem join_append (a b : List String) :
    String.join (a ++ b) = String.join a ++ String.join b := by
  apply String.ext
  simp [String.join_eq]

theorem renderFor_append (t : String) (a b : List SettingValue) :
    renderFor t (a ++ b) = renderFor t a ++ renderFor t b := by
  unfold renderFor
  rw [List.filter_append, List.map_append, join_append]

theorem renderFor_single_kept (t : String) (x : SettingValue)
    (h : x.meta.source_config = t) :
    renderFor t [x] = SettingValue.render x := by
  unfold renderFor
  rw [List.filter_cons]
  simp [h, String.join_eq]

theorem renderFor_nil (t : String) : renderFor t [] = "" := rfl

/-- Decomposition of a simple directive line. -/
theorem simpleDirective_spec {line : String} (h : simpleDirective line = true) :
    isBlankLine line = false ∧ isCommentLine line = false ∧ rustTrim line = line
    ∧ ∃ k v, splitFirst '=' line.data = some (k, v)
        ∧ rustTrim (String.mk k) = String.mk k
        ∧ rustTrim (String.mk v) = String.mk v
        ∧ specialKey (String.mk k) = false := by
  unfold simpleDirective at h
  cases hsp : splitFirst '=' line.data with
  | none =>
    rw [hsp] at h
    simp at h
  | some kv =>
    obtain ⟨k, v⟩ := kv
    rw [hsp] at h
    simp only [Bool.and_eq_true, Bool.not_eq_true', beq_iff_eq] at h
    obtain ⟨⟨⟨h1, h2⟩, h3⟩, ⟨h4, h5⟩, h6⟩ := h
    exact ⟨h1, h2, h3, k, v, rfl, h4, h5, h6⟩

theorem simpleDirective_not_blank_comment {l : String} (h : simpleDirective l = true) :
    isBlankLine l = false ∧ isCommentLine l = false := by
  have := simpleDirective_spec h
  exact ⟨this.1, this.2.1⟩

/-- A simple directive line appends exactly one setting, tagged with the
processed file and rendering as the pending comment followed by the original
key=value text. -/
theorem processLine_simpleDirective (d : PlatformDefaults) (p : String) (st : LoadState)
    (line : String) (st' : LoadState)
    (hd : simpleDirective line = true)
    (h : processLine d p st line = .ok st') :
    st'.cfg.root_config = st.cfg.root_config
    ∧ st'.sub_configs = st.sub_configs
    ∧ st'.queued_comment = ""
    ∧ ∃ x : SettingValue,
        st'.cfg.settings = st.cfg.settings ++ [x]
        ∧ x.meta.source_config = p
        ∧ SettingValue.render x = st.queued_comment ++ line
        ∧ subConfigSettings [x] = [] := by
  obtain ⟨hnb, hnc, htr, k, v, hsp, htk, htv, hspec⟩ := simpleDirective_spec hd
  have hne : ¬ rustTrim line = "" := by
    intro he
    rw [isBlankLine, he] at hnb
    simp at hnb
  have hnh : ¬ (rustTrim line).data.head? = some '#' := by
    intro he
    rw [isCommentLine, he] at hnc
    simp at hnc
  have hld := splitFirst_eq_some_imp '=' hsp
  have hline : line = String.mk k ++ "=" ++ String.mk v := by
    apply String.ext
    rw [hld, List.append_cons]
    rfl
  unfold processLine at h
  rw [if_neg hne, if_neg hnh, htr, hsp] at h
  dsimp only [] at h
  rw [htk, htv] at h
  simp only [specialKey, Bool.or_eq_false_iff, beq_eq_false_iff_ne] at hspec
  obtain ⟨⟨⟨⟨⟨⟨⟨hsF, hsE⟩, hsC⟩, hsD⟩, hsR⟩, hsU⟩, hsL⟩, hsP⟩ := hspec
  unfold dispatchLine at h
  by_cases hc1 : String.mk k = "content"
  · rw [if_pos hc1] at h
    by_cases hdup : (st.cfg.settings.any fun s =>
        match s with
        | SettingValue.ContentFile p => p.value == String.mk v
        | _ => false) = true
    · rw [if_pos hdup] at h
      exact Except.noConfusion h
    · rw [if_neg hdup] at h
      injection h with h
      subst h
      refine ⟨rfl, rfl, rfl,
        SettingValue.ContentFile ⟨⟨p, st.queued_comment⟩, String.mk v⟩, rfl, rfl, ?_, rfl⟩
      show st.queued_comment ++ "content=" ++ String.mk v = st.queued_comment ++ line
      rw [hline, hc1, ← String.append_assoc]
      rfl
  rw [if_neg hc1] at h
  by_cases hc2 : String.mk k = "groundcover"
  · rw [if_pos hc2] at h
    by_cases hdup : (st.cfg.settings.any fun s =>
        match s with
        | SettingValue.Groundcover p => p.value == String.mk v
        | _ => false) = true
    · rw [if_pos hdup] at h
      exact Except.noConfusion h
    · rw [if_neg hdup] at h
      injection h with h
      subst h
      refine ⟨rfl, rfl, rfl,
        SettingValue.Groundcover ⟨⟨p, st.queued_comment⟩, String.mk v⟩, rfl, rfl, ?_, rfl⟩
      show st.queued_comment ++ "groundcover=" ++ String.mk v = st.queued_comment ++ line
      rw [hline, hc2, ← String.append_assoc]
      rfl
  rw [if_neg hc2] at h
  by_cases hc3 : String.mk k = "fallback-archive"
  · rw [if_pos hc3] at h
    by_cases hdup : (st.cfg.settings.any fun s =>
        match s with
        | SettingValue.BethArchive p => p.value == String.mk v
        | _ => false) = true
    · rw [if_pos hdup] at h
      exact Except.noConfusion h
    · rw [if_neg hdup] at h
      injection h with h
      subst h
      refine ⟨rfl, rfl, rfl,
        SettingValue.BethArchive ⟨⟨p, st.queued_comment⟩, String.mk v⟩, rfl, rfl, ?_, rfl⟩
      show st.queued_comment ++ "fallback-archive=" ++ String.mk v = st.queued_comment ++ line
      rw [hline, hc3, ← String.append_assoc]
      rfl
  rw [if_neg hc3] at h
  rw [if_neg hsF, if_neg hsE, if_neg hsC, if_neg hsD, if_neg hsR, if_neg hsU, if_neg hsL,
    if_neg hsP] at h
  injection h with h
  subst h
  refine ⟨rfl, rfl, rfl,
    SettingValue.Generic ⟨⟨p, st.queued_comment⟩, String.mk k, String.mk v⟩, rfl, rfl, ?_, rfl⟩
  show st.queued_comment ++ String.mk k ++ "=" ++ String.mk v = st.queued_comment ++ line
  rw [hline, ← String.append_assoc, ← String.append_assoc]

/-- Folding the line processor over a file of simple lines accumulates, for
the settings tagged with the processed file, exactly the flattened original
text: comment blocks with their newlines, directive lines without one. -/
theorem fold_render (d : PlatformDefaults) (root : String) :
    ∀ (lines : List String) (st st' : LoadState),
      lines.all simpleLine = true →
      lines.foldlM (processLine d root) st = .ok st' →
      st'.cfg.root_config = st.cfg.root_config
      ∧ st'.sub_configs = st.sub_configs
      ∧ subConfigSettings st'.cfg.settings = subConfigSettings st.cfg.settings
      ∧ renderFor root st'.cfg.settings ++ st'.queued_comment
          = renderFor root st.cfg.settings ++ st.queued_comment ++ flattenLines lines
      ∧ st'.queued_comment = trailComment st.queued_comment lines := by
  intro lines
  induction lines with
  | nil =>
    intro st st' _ h
    rw [List.foldlM_nil] at h
    injection h with h
    subst h
    refine ⟨rfl, rfl, rfl, ?_, rfl⟩
    simp [flattenLines]
  | cons line rest ih =>
    intro st st' hl h
    have hlrest : rest.all simpleLine = true := by
      rw [List.all_cons, Bool.and_eq_true] at hl
      exact hl.2
    have hlline : simpleLine line = true := by
      rw [List.all_cons, Bool.and_eq_true] at hl
      exact hl.1
    rw [List.foldlM_cons] at h
    cases hpl : processLine d root st line with
    | error e =>
      rw [hpl] at h
      exact Except.noConfusion h
    | ok st1 =>
      rw [hpl] at h
      obtain ⟨ih1, ih2, ih3, ih4, ih5⟩ := ih st1 st' hlrest h
      by_cases hb : isBlankLine line = true
      · have hblank : rustTrim line = "" := by
          rw [isBlankLine, beq_iff_eq] at hb
          exact hb
        have hred : processLine d root st line =
            .ok { st with queued_comment := st.queued_comment ++ "\n" } := by
          unfold processLine
          rw [if_pos hblank]
        rw [hred] at hpl
        injection hpl with hpl
        rw [← hpl] at ih1 ih2 ih3 ih4 ih5
        refine ⟨ih1, ih2, ih3, ?_, ?_⟩
        · rw [ih4]
          show renderFor root st.cfg.settings ++ (st.queued_comment ++ "\n") ++ flattenLines rest
            = _
          rw [flattenLines, if_pos hb]
          rw [String.append_assoc, String.append_assoc, String.append_assoc]
        · rw [ih5, trailComment, if_pos hb]
      · by_cases hcm : isCommentLine line = true
        · have hcomm : (rustTrim line).data.head? = some '#' := by
            rw [isCommentLine, beq_iff_eq] at hcm
            exact hcm
          have hnblank : ¬ rustTrim line = "" := by
            intro he
            rw [he] at hcomm
            exact Option.noConfusion hcomm
          have hred : processLine d root st line =
              .ok { st with queued_comment := st.queued_comment ++ line ++ "\n" } := by
            unfold processLine
            rw [if_neg hnblank, if_pos hcomm]
          rw [hred] at hpl
          injection hpl with hpl
          rw [← hpl] at ih1 ih2 ih3 ih4 ih5
          refine ⟨ih1, ih2, ih3, ?_, ?_⟩
          · rw [ih4]
            show renderFor root st.cfg.settings ++ (st.queued_comment ++ line ++ "\n")
                ++ flattenLines rest = _
            rw [flattenLines, if_neg hb, if_pos hcm]
            simp [String.append_assoc]
          · rw [ih5, trailComment, if_neg hb, if_pos hcm]
        · have hd : simpleDirective line = true := by
            have hb2 : isBlankLine line = false := by
              cases hx : isBlankLine line
              · rfl
              · exact absurd hx hb
            have hc2 : isCommentLine line = false := by
              cases hx : isCommentLine line
              · rfl
              · exact absurd hx hcm
            have hsl := hlline
            unfold simpleLine at hsl
            rw [hb2, hc2] at hsl
            simpa using hsl
          obtain ⟨p1, p2, p3, x, px, psrc, prend, psub⟩ :=
            processLine_simpleDirective d root st line st1 hd hpl
          refine ⟨ih1.trans p1, ih2.trans p2, ?_, ?_, ?_⟩
          · rw [ih3, px]
            unfold subConfigSettings at psub ⊢
            rw [List.filterMap_append, psub, List.append_nil]
          · rw [ih4, px, renderFor_append, renderFor_single_kept root x psrc, prend, p3]
            rw [flattenLines, if_neg hb, if_neg hcm]
            rw [String.append_assoc, String.append_assoc, String.append_assoc]
            simp [String.append_assoc]
          · rw [ih5, p3, trailComment, if_neg hb, if_neg hcm]

/-- A run of lines ending in a directive leaves an empty comment buffer. -/
theorem trailComment_empty :
    ∀ (lines : List String) (c : String), (lines = [] → c = "") →
      ((lines.getLast?.map simpleDirective).getD true = true) →
      trailComment c lines = "" := by
  intro lines
  induction lines with
  | nil =>
    intro c h1 _
    rw [trailComment]
    exact h1 rfl
  | cons l rest ih =>
    intro c _ hlast
    cases rest with
    | nil =>
      have hld : simpleDirective l = true := by
        simpa using hlast
      obtain ⟨hnb, hnc⟩ := simpleDirective_not_blank_comment hld
      rw [trailComment, if_neg (by rw [hnb]; exact Bool.false_ne_true),
        if_neg (by rw [hnc]; exact Bool.false_ne_true), trailComment]
    | cons r rs =>
      have hlast2 : (((r :: rs).getLast?.map simpleDirective).getD true) = true := by
        rw [← List.getLast?_cons_cons (a := l)]
        exact hlast
      rw [trailComment]
      by_cases hbl : isBlankLine l = true
      · rw [if_pos hbl]
        exact ih _ (fun he => absurd he (List.cons_ne_nil r rs)) hlast2
      · rw [if_neg hbl]
        by_cases hcm : isCommentLine l = true
        · rw [if_pos hcm]
          exact ih _ (fun he => absurd he (List.cons_ne_nil r rs)) hlast2
        · rw [if_neg hcm]
          exact ih _ (fun he => absurd he (List.cons_ne_nil r rs)) hlast2

/-- C1 amended: serializing a loaded single-file chain of simple lines (blank
lines, comment lines, and trimmed directive lines of the verbatim-stored,
file-tagged kinds: content, groundcover, fallback-archive and generic keys,
the last line a directive) reproduces the original text EXCEPT that each
key=value line is emitted WITHOUT its trailing newline (blank and comment
lines keep theirs); there is no generated trailer in save_user.  Settings of
the other kinds are excluded because the serializer re-renders fallback and
encoding values canonically and because directory-valued settings are tagged
with their defining directory rather than the file, which the save filter
never matches. -/
theorem save_reproduces_untouched_file (d : PlatformDefaults) (root rDir : String)
    (lines : List String) (cfg : OpenMWConfiguration)
    (hparent : parentDir root = rDir)
    (hjoin : pathJoin rDir "openmw.cfg" = root)
    (hl : lines.all simpleLine = true)
    (hlast : (lines.getLast?.map simpleDirective).getD true = true)
    (hload : load d ⟨[(root, lines)]⟩ 1 root ⟨root, []⟩ = .ok cfg) :
    cfg.save_user_string = flattenLines lines := by
  unfold load at hload
  have hlk : (ConfigFS.mk [(root, lines)]).lookup root = some lines := by
    simp [ConfigFS.lookup]
  rw [hlk] at hload
  dsimp only [] at hload
  cases hst : lines.foldlM (processLine d root) ⟨⟨root, []⟩, "", []⟩ with
  | error e =>
    rw [hst] at hload
    exact Except.noConfusion hload
  | ok st =>
    rw [hst] at hload
    obtain ⟨f1, f2, f3, f4, f5⟩ := fold_render d root lines ⟨⟨root, []⟩, "", []⟩ st hl hst
    change List.foldlM _ st.cfg st.sub_configs = Except.ok cfg at hload
    rw [f2] at hload
    rw [List.foldlM_nil] at hload
    injection hload with hload
    subst hload
    have hqc : st.queued_comment = "" := by
      rw [f5]
      exact trailComment_empty lines "" (fun _ => rfl) hlast
    have hrender : renderFor root st.cfg.settings = flattenLines lines := by
      have := f4
      rw [hqc] at this
      simpa [renderFor_nil] using this
    unfold OpenMWConfiguration.save_user_string OpenMWConfiguration.user_config_path
    have hsc : st.cfg.sub_configs = [] := by
      unfold OpenMWConfiguration.sub_configs
      rw [f3]
      rfl
    rw [hsc]
    unfold OpenMWConfiguration.root_config_dir
    rw [f1]
    show renderFor (pathJoin ((([] : List DirectorySetting).map
      DirectorySetting.parsed).getLast?.getD (parentDir root)) "openmw.cfg")
      st.cfg.settings = _
    rw [List.map_nil]
    show renderFor (pathJoin ((none : Option String).getD (parentDir root)) "openmw.cfg")
      st.cfg.settings = _
    rw [Option.getD_none, hparent, hjoin]
    exact hrender

/-- Witness for the round-trip theorem at a concrete file mixing comments,
blanks, content lines and a generic key. -/
theorem save_reproduces_untouched_file_witness :
    cfgRT.save_user_string = flattenLines rtLines :=
  save_reproduces_untouched_file d0 "/r/openmw.cfg" "/r" rtLines cfgRT rfl rfl
    (by decide) (by decide) rfl

end OpenmwCfg
